import Mathlib

/-!
Admission patches of lb-controlling-framework.

A shallow embedding of `pkg/lbcfcontroller/admission/mutate.go`: the JSON-Patch
values built by `addLabel`, `addFinalizer`, `defaultSvcProtocol`,
`defaultPodProtocol`, and the two builders `backendGroupPatch` and
`driverPatch`.

Go strings are `String`s; the two standard-library helpers the file calls,
`strings.ReplaceAll` and `path.Join` (with `path.Clean`), are embedded from the
Go standard library. A Go `map[string]string` is an association list read with
`List.lookup`, and a Go slice is a `List`; both are wrapped in `Option`, with
`none` for nil (a nil map or slice has length 0 and ranging over it visits
nothing).
-/

namespace strings

/-- Whether `s` begins with `old` (Go: `strings.HasPrefix`). -/
def hasPrefix : List Char → List Char → Bool
  | _, [] => true
  | [], _ :: _ => false
  | c :: s, d :: old => c == d && hasPrefix s old

/-- Scan of `strings.ReplaceAll` for a non-empty `old`: matches are taken
leftmost-first and do not overlap. The first argument counts the bytes of the
match just replaced that are still to be passed over. -/
def replaceScan (old new : List Char) : Nat → List Char → List Char
  | _, [] => []
  | skip + 1, _ :: s => replaceScan old new skip s
  | 0, c :: s =>
    if hasPrefix (c :: s) old then new ++ replaceScan old new (old.length - 1) s
    else c :: replaceScan old new 0 s

/-- Go: `strings.ReplaceAll(s, old, new)`. With an empty `old` Go inserts `new`
before every character and at the end of the string. -/
def ReplaceAll (s old new : String) : String :=
  if old = new then s
  else if old.data = [] then ⟨new.data ++ s.data.flatMap (fun c => c :: new.data)⟩
  else ⟨replaceScan old.data new.data 0 s.data⟩

end strings

namespace path

/-- The backtracking of `Clean` on a `..` element, after the first `out.w--`:
`for out.w > dotdot && out.index(out.w) != '/' { out.w-- }`, as a function of
`out.w` that returns the final `out.w`. -/
def backtrack (buf : List Char) (dotdot : Nat) : Nat → Nat
  | 0 => 0
  | w + 1 =>
    if w + 1 > dotdot ∧ buf.getD (w + 1) '/' ≠ '/' then backtrack buf dotdot w
    else w + 1

/-- The main loop of `Clean` (`for r < n`). The state is the unread input
`path[r:]`, the output written so far `out[:w]` and the index `dotdot`; every
turn reads at least one byte, so `n` turns are enough. -/
def cleanLoop (rooted : Bool) : Nat → List Char → List Char → Nat → List Char
  | 0, _, out, _ => out
  | fuel + 1, p, out, dotdot =>
    match p with
    | [] => out
    | c :: rest =>
      if c = '/' then
        cleanLoop rooted fuel rest out dotdot
      else if c = '.' ∧ (rest = [] ∨ rest.head? = some '/') then
        cleanLoop rooted fuel rest out dotdot
      else if c = '.' ∧ rest.head? = some '.' ∧
          (rest.tail = [] ∨ rest.tail.head? = some '/') then
        if out.length > dotdot then
          cleanLoop rooted fuel rest.tail
            (out.take (backtrack out dotdot (out.length - 1))) dotdot
        else if rooted = false then
          let out1 := (if out.length > 0 then out ++ ['/'] else out) ++ ['.', '.']
          cleanLoop rooted fuel rest.tail out1 out1.length
        else
          cleanLoop rooted fuel rest.tail out dotdot
      else
        let out1 :=
          if (rooted = true ∧ out.length ≠ 1) ∨ (rooted = false ∧ out.length ≠ 0)
          then out ++ ['/'] else out
        cleanLoop rooted fuel (rest.dropWhile (fun x => x != '/'))
          (out1 ++ c :: rest.takeWhile (fun x => x != '/')) dotdot

/-- Go: `path.Clean`. -/
def Clean (p : String) : String :=
  if p = "" then "."
  else
    let rooted : Bool := p.data.head? = some '/'
    let out :=
      if rooted then cleanLoop rooted p.data.length p.data.tail ['/'] 1
      else cleanLoop rooted p.data.length p.data [] 0
    if out.length = 0 then "." else ⟨out⟩

/-- Go: `path.Join(elem...)`: the elements from the first non-empty one on are
joined with slashes and the result is cleaned. -/
def Join (elem : List String) : String :=
  if (elem.map String.length).sum = 0 then ""
  else
    Clean ⟨elem.foldl
      (fun buf e =>
        if buf ≠ [] ∨ e ≠ "" then (if buf ≠ [] then buf ++ ['/'] else buf) ++ e.data
        else buf) []⟩

end path

namespace admission

def patchOpAdd : String := "add"

def patchOpReplace : String := "replace"

/-- Go: `lbcfapi.WebhookConfig`, with the two fields `setWebhook` fills in; the
timeout (`lbcfapi.Duration`, a `time.Duration`) is a number of nanoseconds. -/
structure WebhookConfig where
  Name : String
  Timeout : Int
  deriving DecidableEq

/-- The values the file stores in `Patch.Value` (Go: `interface{}`). -/
inductive PatchValue where
  /-- A `string`. -/
  | str (s : String)
  /-- A `map[string]string`. -/
  | labels (m : List (String × String))
  /-- A `[]string`. -/
  | strs (l : List String)
  /-- The empty `[]interface{}`. -/
  | emptyList
  /-- A `lbcfapi.WebhookConfig`. -/
  | webhook (c : WebhookConfig)
  deriving DecidableEq

/-- Go: `Patch`, the json patch struct. -/
structure Patch where
  OP : String
  Path : String
  Value : PatchValue
  deriving DecidableEq

/-- The key as `addLabel` escapes it for the path:
`strings.ReplaceAll(key, "~", "~0")`, then `strings.ReplaceAll(key, "/", "~1")`. -/
def escapeKey (key : String) : String :=
  strings.ReplaceAll (strings.ReplaceAll key "~" "~0") "/" "~1"

/-- The JSON-Pointer rule that reads an escaped reference token back (RFC 6901),
in the order the specification gives: "~1" to "/" first, then "~0" to "~". -/
def unescapeKey (seg : String) : String :=
  strings.ReplaceAll (strings.ReplaceAll seg "~1" "/") "~0" "~"

/-- Go: `addLabel`. -/
def addLabel (createLabel isReplace : Bool) (key value : String) : Patch :=
  if createLabel then
    { OP := patchOpAdd
      Path := path.Join ["/", "metadata", "labels"]
      Value := PatchValue.labels [(key, value)] }
  else
    { OP := if isReplace then patchOpReplace else patchOpAdd
      Path := path.Join ["/", "metadata", "labels", escapeKey key]
      Value := PatchValue.str value }

/-- Go: `addFinalizer`. -/
def addFinalizer (createFinalizer : Bool) (finalizer : String) : Patch :=
  if createFinalizer then
    { OP := patchOpAdd
      Path := path.Join ["/", "metadata", "finalizers"]
      Value := PatchValue.strs [finalizer] }
  else
    { OP := patchOpAdd
      Path := path.Join ["/", "metadata", "finalizers", "-"]
      Value := PatchValue.str finalizer }

/-- Go: `defaultSvcProtocol`. -/
def defaultSvcProtocol : Patch :=
  { OP := patchOpAdd, Path := "/spec/service/port/protocol", Value := PatchValue.str "TCP" }

/-- Go: `defaultPodProtocol`. -/
def defaultPodProtocol : Patch :=
  { OP := patchOpAdd, Path := "/spec/pods/port/protocol", Value := PatchValue.str "TCP" }

/-- Go: the type of `Spec.Service.Port` and `Spec.Pods.Port`, with the one field
the builder reads. -/
structure PortSelector where
  Protocol : String
  deriving DecidableEq

/-- Go: `lbcfapi.ServiceBackend`. -/
structure ServiceBackend where
  Port : PortSelector
  deriving DecidableEq

/-- Go: `lbcfapi.PodBackend`. -/
structure PodBackend where
  Port : PortSelector
  deriving DecidableEq

/-- Go: `lbcfapi.BackendGroupSpec`; `Service` and `Pods` are pointers. -/
structure BackendGroupSpec where
  LBName : String
  Service : Option ServiceBackend
  Pods : Option PodBackend
  deriving DecidableEq

/-- Go: `lbcfapi.BackendGroup`, with the fields the builder reads. `Labels` is
`none` for a nil map. -/
structure BackendGroup where
  Labels : Option (List (String × String))
  Spec : BackendGroupSpec
  deriving DecidableEq

/-- Go: `backendGroupPatch`. -/
structure backendGroupPatch where
  obj : BackendGroup
  patches : List Patch
  deriving DecidableEq

/-- Go: `(*backendGroupPatch).addLabel`. The constant `lbcfapi.LabelLBName` is
declared outside this file and is the parameter `LabelLBName`. The tuple
`(skip, replace)` is what the `if bp.obj.Labels != nil` block leaves in the two
variables. -/
def backendGroupPatch.addLabel (LabelLBName : String) (bp : backendGroupPatch) :
    backendGroupPatch :=
  let sr : Bool × Bool :=
    match bp.obj.Labels with
    | none => (false, false)
    | some labels =>
      match labels.lookup LabelLBName with
      | some value => if value = bp.obj.Spec.LBName then (true, false) else (false, true)
      | none => (false, false)
  let createLabel : Bool :=
    match bp.obj.Labels with
    | none => true
    | some labels => labels.length == 0
  if sr.1 = false then
    { bp with
      patches := bp.patches ++ [admission.addLabel createLabel sr.2 LabelLBName bp.obj.Spec.LBName] }
  else bp

/-- Go: `(*backendGroupPatch).setDefaultProtocol`. -/
def backendGroupPatch.setDefaultProtocol (bp : backendGroupPatch) : backendGroupPatch :=
  if bp.obj.Spec.Service.any (fun svc => svc.Port.Protocol == "") then
    { bp with patches := bp.patches ++ [defaultSvcProtocol] }
  else if bp.obj.Spec.Pods.any (fun pod => pod.Port.Protocol == "") then
    { bp with patches := bp.patches ++ [defaultPodProtocol] }
  else bp

/-- Go: `(*backendGroupPatch).patch`. -/
def backendGroupPatch.patch (bp : backendGroupPatch) : List Patch :=
  bp.patches

/-- Go: `time.Second`, in nanoseconds. -/
def timeSecond : Int := 1000000000

/-- Go: `defaultWebhookTimeout = 10 * time.Second`. -/
def defaultWebhookTimeout : Int := 10 * timeSecond

/-- Go: `lbcfapi.LoadBalancerDriverSpec`, with the field the builder reads. -/
structure LoadBalancerDriverSpec where
  Webhooks : Option (List WebhookConfig)
  deriving DecidableEq

/-- Go: `lbcfapi.LoadBalancerDriver`. -/
structure LoadBalancerDriver where
  Spec : LoadBalancerDriverSpec
  deriving DecidableEq

/-- Go: `driverPatch`. -/
structure driverPatch where
  obj : LoadBalancerDriver
  patches : List Patch
  deriving DecidableEq

/-- The set `existWebhooks` after the first loop of `setWebhook`: a
`sets.String` filled by `Insert(has.Name)`, kept as a list without
repetition. -/
def existWebhooks (ws : List WebhookConfig) : List String :=
  ws.foldl (fun s has => s.insert has.Name) []

/-- The patch the second loop of `setWebhook` appends for a missing name. -/
def webhookPatch (known : String) : Patch :=
  { OP := patchOpAdd
    Path := path.Join ["/", "spec", "webhooks", "-"]
    Value := PatchValue.webhook { Name := known, Timeout := defaultWebhookTimeout } }

/-- Go: `(*driverPatch).setWebhook`. The set `webhooks.KnownWebhooks` is
declared outside this file; the parameter `KnownWebhooks` lists its names in
the order in which the `range` loop visits them. -/
def driverPatch.setWebhook (KnownWebhooks : List String) (dp : driverPatch) : driverPatch :=
  let createArray : Bool := (dp.obj.Spec.Webhooks.getD []).length == 0
  let patches0 :=
    if createArray then
      dp.patches ++
        [{ OP := patchOpAdd, Path := path.Join ["/", "spec", "webhooks"],
           Value := PatchValue.emptyList }]
    else dp.patches
  let exist := existWebhooks (dp.obj.Spec.Webhooks.getD [])
  { dp with
    patches := KnownWebhooks.foldl
      (fun patches known => if known ∈ exist then patches else patches ++ [webhookPatch known])
      patches0 }

/-- Go: `(*driverPatch).patch`. -/
def driverPatch.patch (dp : driverPatch) : List Patch :=
  dp.patches

/-! ### Applying the patches

Idempotence and webhook completeness speak of the snapshot after the patches
are applied. The application is that of JSON Patch (RFC 6902) with JSON-Pointer
paths (RFC 6901), restricted to the locations the snapshots have.
-/

/-- Splits at every "/". -/
def splitSlash : List Char → List (List Char)
  | [] => [[]]
  | c :: s =>
    if c = '/' then [] :: splitSlash s
    else
      match splitSlash s with
      | [] => [[c]]
      | t :: ts => (c :: t) :: ts

/-- The reference tokens of a JSON Pointer (RFC 6901): the empty pointer has
none; any other pointer starts with "/", and its tokens, separated by "/", are
read back by the unescape rule. -/
def pointerTokens (p : String) : Option (List String) :=
  match p.data with
  | [] => some []
  | c :: s =>
    if c = '/' then some ((splitSlash s).map (fun t => unescapeKey ⟨t⟩)) else none

/-- Binds `k` to `v` in a label map. -/
def setLabel (m : List (String × String)) (k v : String) : List (String × String) :=
  (k, v) :: m.filter (fun e => e.1 != k)

/-- One operation of a JSON Patch on a BackendGroup snapshot; `none` when the
operation fails (an unknown operation or location, a parent that does not
exist, a `replace` of a member that does not exist, a value the field cannot
hold). -/
def applyBackendGroupPatch (p : Patch) (o : BackendGroup) : Option BackendGroup :=
  if p.OP ≠ patchOpAdd ∧ p.OP ≠ patchOpReplace then none
  else
    match pointerTokens p.Path with
    | none => none
    | some toks =>
      if toks = ["metadata", "labels"] then
        match p.Value with
        | PatchValue.labels m =>
          if p.OP = patchOpReplace ∧ o.Labels = none then none
          else some { o with Labels := some m }
        | _ => none
      else if toks.length = 3 ∧ toks.take 2 = ["metadata", "labels"] then
        match o.Labels, p.Value with
        | some m, PatchValue.str v =>
          if p.OP = patchOpReplace ∧ m.lookup (toks.getD 2 "") = none then none
          else some { o with Labels := some (setLabel m (toks.getD 2 "") v) }
        | _, _ => none
      else if toks = ["spec", "service", "port", "protocol"] then
        match o.Spec.Service, p.Value with
        | some _, PatchValue.str v =>
          some { o with Spec := { o.Spec with Service := some { Port := { Protocol := v } } } }
        | _, _ => none
      else if toks = ["spec", "pods", "port", "protocol"] then
        match o.Spec.Pods, p.Value with
        | some _, PatchValue.str v =>
          some { o with Spec := { o.Spec with Pods := some { Port := { Protocol := v } } } }
        | _, _ => none
      else none

/-- The operations of a JSON Patch applied in order; the patch fails when one of
its operations does. -/
def applyBackendGroupPatches : List Patch → BackendGroup → Option BackendGroup
  | [], o => some o
  | p :: ps, o => (applyBackendGroupPatch p o).bind (applyBackendGroupPatches ps)

/-- The patches a fresh builder returns for a BackendGroup snapshot: `addLabel`,
then `setDefaultProtocol`, then `patch()`. -/
def backendGroupPatches (LabelLBName : String) (o : BackendGroup) : List Patch :=
  ((backendGroupPatch.addLabel LabelLBName { obj := o, patches := [] }).setDefaultProtocol).patch

/-- One operation of a JSON Patch on a driver snapshot; `none` when the
operation fails. The token "-" appends to the webhook list, which must exist. -/
def applyDriverPatch (p : Patch) (d : LoadBalancerDriver) : Option LoadBalancerDriver :=
  if p.OP ≠ patchOpAdd ∧ p.OP ≠ patchOpReplace then none
  else
    match pointerTokens p.Path with
    | none => none
    | some toks =>
      if toks = ["spec", "webhooks"] then
        match p.Value with
        | PatchValue.emptyList =>
          if p.OP = patchOpReplace ∧ d.Spec.Webhooks = none then none
          else some { Spec := { Webhooks := some [] } }
        | _ => none
      else if toks = ["spec", "webhooks", "-"] then
        match d.Spec.Webhooks, p.Value with
        | some ws, PatchValue.webhook c =>
          if p.OP = patchOpAdd then some { Spec := { Webhooks := some (ws ++ [c]) } } else none
        | _, _ => none
      else none

/-- The operations of a JSON Patch applied in order to a driver snapshot. -/
def applyDriverPatches : List Patch → LoadBalancerDriver → Option LoadBalancerDriver
  | [], d => some d
  | p :: ps, d => (applyDriverPatch p d).bind (applyDriverPatches ps)

/-- The patches a fresh builder returns for a driver snapshot: `setWebhook`,
then `patch()`. -/
def driverPatches (KnownWebhooks : List String) (d : LoadBalancerDriver) : List Patch :=
  (driverPatch.setWebhook KnownWebhooks { obj := d, patches := [] }).patch

/-- Whether every "~" of a reference token is immediately followed by "0" or
"1", the two escapes RFC 6901 allows. -/
def tildesEscaped : List Char → Bool
  | [] => true
  | c :: rest =>
    (c != '~' || rest.head? == some '0' || rest.head? == some '1') && tildesEscaped rest

end admission

/-! ## Lemmas on the standard-library helpers -/

namespace path

theorem cleanLoop_nil (rooted : Bool) (fuel : Nat) (out : List Char) (dotdot : Nat) :
    cleanLoop rooted fuel [] out dotdot = out := by
  cases fuel <;> rfl

theorem takeWhile_noSlash (seg : List Char) (h : '/' ∉ seg) :
    seg.takeWhile (fun x => x != '/') = seg := by
  induction seg with
  | nil => rfl
  | cons c t ih =>
    simp only [List.mem_cons, not_or] at h
    have hc : c ≠ '/' := fun e => h.1 e.symm
    simp [List.takeWhile_cons, hc, ih h.2]

theorem dropWhile_noSlash (seg : List Char) (h : '/' ∉ seg) :
    seg.dropWhile (fun x => x != '/') = [] := by
  induction seg with
  | nil => rfl
  | cons c t ih =>
    simp only [List.mem_cons, not_or] at h
    have hc : c ≠ '/' := fun e => h.1 e.symm
    simp [List.dropWhile_cons, hc, ih h.2]

/-- One turn of the loop on a last element that is a real path element. -/
theorem cleanLoop_lastElem (fuel : Nat) (seg out : List Char) (dotdot : Nat)
    (hs : '/' ∉ seg) (h0 : seg ≠ []) (h1 : seg ≠ ['.']) (h2 : seg ≠ ['.', '.'])
    (hout : out.length ≠ 1) :
    cleanLoop true (fuel + 1) seg out dotdot = out ++ '/' :: seg := by
  cases seg with
  | nil => exact absurd rfl h0
  | cons c rest =>
    simp only [List.mem_cons, not_or] at hs
    have hc : c ≠ '/' := fun e => hs.1 e.symm
    have hr : rest.head? ≠ some '/' := by
      cases rest with
      | nil => simp
      | cons d t =>
        simp only [List.mem_cons, not_or] at hs
        simpa using fun e => hs.2.1 e.symm
    have c2 : ¬ (c = '.' ∧ (rest = [] ∨ rest.head? = some '/')) := by
      rintro ⟨rfl, h | h⟩
      · exact h1 (by rw [h])
      · exact hr h
    have c3 : ¬ (c = '.' ∧ rest.head? = some '.' ∧
        (rest.tail = [] ∨ rest.tail.head? = some '/')) := by
      rintro ⟨rfl, hh, h⟩
      cases rest with
      | nil => simp at hh
      | cons d t =>
        simp only [List.head?_cons, Option.some.injEq] at hh
        subst hh
        simp only [List.tail_cons] at h
        rcases h with h | h
        · exact h2 (by rw [h])
        · cases t with
          | nil => simp at h
          | cons e u =>
            simp only [List.mem_cons, not_or] at hs
            simp only [List.head?_cons, Option.some.injEq] at h
            exact hs.2.2.1 h.symm
    rw [cleanLoop]
    simp only [hc, c2, c3, if_false, hout, ne_eq, not_false_eq_true, and_self, true_or, if_true,
      takeWhile_noSlash rest hs.2, dropWhile_noSlash rest hs.2, cleanLoop_nil]
    simp

theorem cleanLoop_labels (fuel : Nat) (seg : List Char)
    (hs : '/' ∉ seg) (h0 : seg ≠ []) (h1 : seg ≠ ['.']) (h2 : seg ≠ ['.', '.']) :
    cleanLoop true (fuel + 1 + 1 + 1 + 1 + 1 + 1)
      ('/' :: 'm' :: 'e' :: 't' :: 'a' :: 'd' :: 'a' :: 't' :: 'a' :: '/' ::
        'l' :: 'a' :: 'b' :: 'e' :: 'l' :: 's' :: '/' :: seg) ['/'] 1 =
      '/' :: 'm' :: 'e' :: 't' :: 'a' :: 'd' :: 'a' :: 't' :: 'a' :: '/' ::
        'l' :: 'a' :: 'b' :: 'e' :: 'l' :: 's' :: '/' :: seg := by
  rw [cleanLoop]
  simp only [if_true]
  rw [cleanLoop]
  simp [List.takeWhile_cons, List.dropWhile_cons]
  rw [cleanLoop]
  simp only [if_true]
  rw [cleanLoop]
  simp [List.takeWhile_cons, List.dropWhile_cons]
  rw [cleanLoop]
  simp only [if_true]
  rw [cleanLoop_lastElem fuel seg _ _ hs h0 h1 h2 (by simp)]
  simp

theorem Join_labels_key (seg : List Char)
    (hs : '/' ∉ seg) (h0 : seg ≠ []) (h1 : seg ≠ ['.']) (h2 : seg ≠ ['.', '.']) :
    Join ["/", "metadata", "labels", ⟨seg⟩] = ⟨"/metadata/labels/".data ++ seg⟩ := by
  obtain ⟨c, t, rfl⟩ := List.exists_cons_of_ne_nil h0
  have hl := cleanLoop_labels (t.length + 13) (c :: t) hs h0 h1 h2
  simp [Join, Clean]
  simp only [Nat.add_assoc] at hl ⊢
  norm_num at hl ⊢
  rw [hl]
  simp only [List.cons_ne_nil, if_false, List.length_cons]
  rw [if_neg]
  intro h
  exact absurd (congrArg String.data h) (List.cons_ne_nil _ _)
end path

namespace strings

theorem replaceScan_single (a : Char) (new l : List Char) :
    replaceScan [a] new 0 l = l.flatMap (fun c => if c = a then new else [c]) := by
  induction l with
  | nil => rfl
  | cons c t ih =>
    by_cases h : c = a
    · simp [replaceScan, hasPrefix, h, ih]
    · simp [replaceScan, hasPrefix, h, ih]

theorem ReplaceAll_single (s : String) (a : Char) (new : String) (h : String.mk [a] ≠ new) :
    ReplaceAll s ⟨[a]⟩ new = ⟨s.data.flatMap (fun c => if c = a then new.data else [c])⟩ := by
  simp [ReplaceAll, h, replaceScan_single]

end strings

namespace admission

theorem escapeKey_data (key : String) :
    (escapeKey key).data = key.data.flatMap
      (fun c => if c = '~' then ['~', '0'] else if c = '/' then ['~', '1'] else [c]) := by
  have e1 : ("~" : String) = ⟨['~']⟩ := rfl
  have e2 : ("/" : String) = ⟨['/']⟩ := rfl
  unfold escapeKey
  rw [e1, e2, strings.ReplaceAll_single _ _ _ (by decide), strings.ReplaceAll_single _ _ _ (by decide)]
  simp only [List.flatMap_assoc]
  congr 1
  funext c
  by_cases h1 : c = '~'
  · subst h1; simp
  · by_cases h2 : c = '/'
    · subst h2; simp
    · simp [h1, h2]


theorem unescape_step1 (l : List Char) :
    strings.replaceScan ['~', '1'] ['/'] 0 (l.flatMap
      (fun c => if c = '~' then ['~', '0'] else if c = '/' then ['~', '1'] else [c])) =
    l.flatMap (fun c => if c = '~' then ['~', '0'] else [c]) := by
  induction l with
  | nil => rfl
  | cons c t ih =>
    rw [List.flatMap_cons, List.flatMap_cons]
    by_cases h1 : c = '~'
    · subst h1
      simp [strings.replaceScan, strings.hasPrefix, ih]
    · by_cases h2 : c = '/'
      · subst h2
        simp [strings.replaceScan, strings.hasPrefix, ih]
      · simp [strings.replaceScan, strings.hasPrefix, ih, h1, h2]

theorem unescape_step2 (l : List Char) :
    strings.replaceScan ['~', '0'] ['~'] 0 (l.flatMap
      (fun c => if c = '~' then ['~', '0'] else [c])) = l := by
  induction l with
  | nil => rfl
  | cons c t ih =>
    rw [List.flatMap_cons]
    by_cases h1 : c = '~'
    · subst h1
      simp [strings.replaceScan, strings.hasPrefix, ih]
    · simp [strings.replaceScan, strings.hasPrefix, ih, h1]

theorem unescapeKey_escapeKey (key : String) : unescapeKey (escapeKey key) = key := by
  have e1 : ("~1" : String) = ⟨['~', '1']⟩ := rfl
  have e2 : ("~0" : String) = ⟨['~', '0']⟩ := rfl
  have n1 : ("~1" : String) ≠ "/" := by decide
  have n2 : ("~0" : String) ≠ "~" := by decide
  unfold unescapeKey
  simp only [strings.ReplaceAll, n1, n2, if_false]
  simp only [e1, e2, List.cons_ne_nil, if_false, escapeKey_data, unescape_step1, unescape_step2]

theorem escapeKey_noSlash (key : String) : '/' ∉ (escapeKey key).data := by
  rw [escapeKey_data]
  simp only [List.mem_flatMap, not_exists, not_and]
  intro c _
  by_cases h1 : c = '~'
  · simp [h1]
  · by_cases h2 : c = '/'
    · simp [h2]
    · simpa [h1, h2] using fun e => h2 e.symm

/-- Escaping keeps the three keys that `path.Clean` treats specially apart from
all others. -/
theorem escapeKey_shape (key : String) (h0 : key ≠ "") (h1 : key ≠ ".") (h2 : key ≠ "..") :
    (escapeKey key).data ≠ [] ∧ (escapeKey key).data ≠ ['.'] ∧
      (escapeKey key).data ≠ ['.', '.'] := by
  have inj : ∀ a b : String, a = b → a.data = b.data := fun a b h => by rw [h]
  refine ⟨fun h => h0 ?_, fun h => h1 ?_, fun h => h2 ?_⟩
  all_goals
    have hk := congrArg unescapeKey (String.ext h : escapeKey key = _)
    rw [unescapeKey_escapeKey] at hk
    rw [hk]
    decide


theorem Join_metadata_labels : path.Join ["/", "metadata", "labels"] = "/metadata/labels" := by
  decide

/-- The path `addLabel` builds for a key that is a real path element. -/
theorem labelPath_proper (key : String) (h0 : key ≠ "") (h1 : key ≠ ".") (h2 : key ≠ "..") :
    path.Join ["/", "metadata", "labels", escapeKey key] =
      "/metadata/labels/" ++ escapeKey key := by
  obtain ⟨s0, s1, s2⟩ := escapeKey_shape key h0 h1 h2
  have h := path.Join_labels_key (escapeKey key).data (escapeKey_noSlash key) s0 s1 s2
  rw [h]
  apply String.ext
  simp

theorem labelPath_ne (key : String) :
    "/metadata/labels/" ++ escapeKey key ≠ "/metadata/labels" := by
  intro h
  have hl := congrArg String.length h
  simp only [String.length_append] at hl
  have e1 : ("/metadata/labels/" : String).length = 17 := by decide
  have e2 : ("/metadata/labels" : String).length = 16 := by decide
  omega

theorem addLabel_create (isReplace : Bool) (key value : String) :
    addLabel true isReplace key value =
      ⟨"add", "/metadata/labels", PatchValue.labels [(key, value)]⟩ := by
  simp [addLabel, Join_metadata_labels, patchOpAdd]

theorem addLabel_proper (isReplace : Bool) (key value : String)
    (h0 : key ≠ "") (h1 : key ≠ ".") (h2 : key ≠ "..") :
    addLabel false isReplace key value =
      ⟨if isReplace then "replace" else "add", "/metadata/labels/" ++ escapeKey key,
        PatchValue.str value⟩ := by
  simp [addLabel, labelPath_proper key h0 h1 h2, patchOpAdd, patchOpReplace]

/-- C1: `backendGroupPatch.addLabel` decides by four cases on the label map `L`
of the snapshot and `want = Spec.LBName`: `L` nil or empty appends the patch
that adds the whole map at "/metadata/labels"; `L` non-empty with the key bound
to another value appends a replace of the escaped key; `L` non-empty without
the key appends an add of the escaped key; the key bound to `want` appends
nothing. The patch at "/metadata/labels" is appended only when `L` is nil or
empty. The key `LabelLBName` is any label key that is a real path element (not
empty, not "." and not ".."). -/
theorem backendGroupPatch_addLabel_cases (key : String) (bp : backendGroupPatch)
    (h0 : key ≠ "") (h1 : key ≠ ".") (h2 : key ≠ "..") :
    ((bp.obj.Labels = none ∨ bp.obj.Labels = some []) →
      bp.addLabel key = { bp with patches := bp.patches ++
        [⟨"add", "/metadata/labels", PatchValue.labels [(key, bp.obj.Spec.LBName)]⟩] }) ∧
    (∀ m v, bp.obj.Labels = some m → m ≠ [] → m.lookup key = some v →
      v ≠ bp.obj.Spec.LBName →
      bp.addLabel key = { bp with patches := bp.patches ++
        [⟨"replace", "/metadata/labels/" ++ escapeKey key,
          PatchValue.str bp.obj.Spec.LBName⟩] }) ∧
    (∀ m, bp.obj.Labels = some m → m ≠ [] → m.lookup key = none →
      bp.addLabel key = { bp with patches := bp.patches ++
        [⟨"add", "/metadata/labels/" ++ escapeKey key,
          PatchValue.str bp.obj.Spec.LBName⟩] }) ∧
    (∀ m, bp.obj.Labels = some m → m.lookup key = some bp.obj.Spec.LBName →
      bp.addLabel key = bp) ∧
    (∀ p, (bp.addLabel key).patches = bp.patches ++ [p] → p.Path = "/metadata/labels" →
      bp.obj.Labels = none ∨ bp.obj.Labels = some []) := by
  refine ⟨?_, ?_, ?_, ?_, ?_⟩
  · rintro (h | h)
    · simp [backendGroupPatch.addLabel, h, addLabel_create]
    · simp [backendGroupPatch.addLabel, h, addLabel_create]
  · intro m v hm hne hl hv
    have hb : (m.length == 0) = false := by simpa using hne
    simp [backendGroupPatch.addLabel, hm, hl, hv, hb, addLabel_proper _ _ _ h0 h1 h2]
  · intro m hm hne hl
    have hb : (m.length == 0) = false := by simpa using hne
    simp [backendGroupPatch.addLabel, hm, hl, hb, addLabel_proper _ _ _ h0 h1 h2]
  · intro m hm hl
    simp [backendGroupPatch.addLabel, hm, hl]
  · intro p hp hpath
    cases hL : bp.obj.Labels with
    | none => exact Or.inl rfl
    | some m =>
      right
      cases m with
      | nil => rfl
      | cons e t =>
        exfalso
        cases hl : (e :: t).lookup key with
        | none =>
          simp [backendGroupPatch.addLabel, hL, hl, addLabel_proper _ _ _ h0 h1 h2] at hp
          rw [← hp] at hpath
          exact labelPath_ne key hpath
        | some v =>
          by_cases hv : v = bp.obj.Spec.LBName
          · simp [backendGroupPatch.addLabel, hL, hl, hv] at hp
          · simp [backendGroupPatch.addLabel, hL, hl, hv, addLabel_proper _ _ _ h0 h1 h2] at hp
            rw [← hp] at hpath
            exact labelPath_ne key hpath


/-- C1, Scenarios A, B and C with key "lb-app" and association value "lb-1":
no labels, labels {team: x}, labels {lb-app: lb-2}. -/
theorem backendGroupPatch_addLabel_cases_witness :
    (backendGroupPatch.addLabel "lb-app" ⟨⟨none, ⟨"lb-1", none, none⟩⟩, []⟩).patches =
      [⟨"add", "/metadata/labels", PatchValue.labels [("lb-app", "lb-1")]⟩] ∧
    (backendGroupPatch.addLabel "lb-app"
        ⟨⟨some [("team", "x")], ⟨"lb-1", none, none⟩⟩, []⟩).patches =
      [⟨"add", "/metadata/labels/lb-app", PatchValue.str "lb-1"⟩] ∧
    (backendGroupPatch.addLabel "lb-app"
        ⟨⟨some [("lb-app", "lb-2")], ⟨"lb-1", none, none⟩⟩, []⟩).patches =
      [⟨"replace", "/metadata/labels/lb-app", PatchValue.str "lb-1"⟩] :=
  ⟨(congrArg backendGroupPatch.patches
      ((backendGroupPatch_addLabel_cases "lb-app" ⟨⟨none, ⟨"lb-1", none, none⟩⟩, []⟩
        (by decide) (by decide) (by decide)).1 (Or.inl rfl))).trans (by decide),
   (congrArg backendGroupPatch.patches
      ((backendGroupPatch_addLabel_cases "lb-app"
        ⟨⟨some [("team", "x")], ⟨"lb-1", none, none⟩⟩, []⟩
        (by decide) (by decide) (by decide)).2.2.1 [("team", "x")] rfl (by decide)
        (by decide))).trans (by decide),
   (congrArg backendGroupPatch.patches
      ((backendGroupPatch_addLabel_cases "lb-app"
        ⟨⟨some [("lb-app", "lb-2")], ⟨"lb-1", none, none⟩⟩, []⟩
        (by decide) (by decide) (by decide)).2.1 [("lb-app", "lb-2")] "lb-2" rfl (by decide)
        (by decide) (by decide))).trans (by decide)⟩

/-- C2: no-overwrite. `backendGroupPatch.addLabel` appends no patch if and only
if the label map binds `LabelLBName` to `Spec.LBName`; in every other case it
appends exactly one patch. -/
theorem backendGroupPatch_addLabel_noOverwrite (key : String) (bp : backendGroupPatch) :
    (bp.addLabel key).obj = bp.obj ∧
    ∃ added, (bp.addLabel key).patches = bp.patches ++ added ∧
      (added = [] ↔
        ∃ m, bp.obj.Labels = some m ∧ m.lookup key = some bp.obj.Spec.LBName) ∧
      ((¬ ∃ m, bp.obj.Labels = some m ∧ m.lookup key = some bp.obj.Spec.LBName) →
        added.length = 1) := by
  cases hL : bp.obj.Labels with
  | none =>
    refine ⟨by simp [backendGroupPatch.addLabel, hL],
      [admission.addLabel true false key bp.obj.Spec.LBName], ?_, ?_, ?_⟩
    · simp [backendGroupPatch.addLabel, hL]
    · simp
    · simp
  | some m =>
    cases hl : m.lookup key with
    | none =>
      refine ⟨by simp [backendGroupPatch.addLabel, hL, hl],
        [admission.addLabel (m.length == 0) false key bp.obj.Spec.LBName], ?_, ?_, ?_⟩
      · simp [backendGroupPatch.addLabel, hL, hl]
      · simp [hl]
      · simp
    | some v =>
      by_cases hv : v = bp.obj.Spec.LBName
      · refine ⟨by simp [backendGroupPatch.addLabel, hL, hl, hv], [], ?_, ?_, ?_⟩
        · simp [backendGroupPatch.addLabel, hL, hl, hv]
        · simp [hl, hv]
        · simp [hl, hv]
      · refine ⟨by simp [backendGroupPatch.addLabel, hL, hl, hv],
          [admission.addLabel (m.length == 0) true key bp.obj.Spec.LBName], ?_, ?_, ?_⟩
        · simp [backendGroupPatch.addLabel, hL, hl, hv]
        · simp [hl, hv]
        · simp

/-- C3: escaping round-trip. For every key, the segment that `addLabel` computes
(every "~" replaced by "~0", then every "/" by "~1"), unescaped by the
JSON-Pointer rule ("~1" to "/" first, then "~0" to "~"), is the key again. -/
theorem escapeKey_roundtrip (key : String) :
    strings.ReplaceAll
      (strings.ReplaceAll
        (strings.ReplaceAll (strings.ReplaceAll key "~" "~0") "/" "~1") "~1" "/")
      "~0" "~" = key ∧
    unescapeKey (escapeKey key) = key :=
  ⟨unescapeKey_escapeKey key, unescapeKey_escapeKey key⟩

/-- C4 fails at the key "..": `path.Join` cleans the joined path, so the label
path is "/metadata", not "/metadata/labels/" followed by the escaped key. -/
theorem addLabel_path_dotdot :
    escapeKey ".." = ".." ∧
    (addLabel false true ".." "lb-1").Path = "/metadata" ∧
    (addLabel false true ".." "lb-1").Path ≠ "/metadata/labels/" ++ escapeKey ".." := by
  decide

/-- C4, amended: for every key and value, `addLabel(createLabel=false, ..)`
returns a patch whose Value is the scalar value and whose OP is "replace" when
`isReplace` is true and "add" otherwise; for every key other than the empty
string, "." and "..", its Path is "/metadata/labels/" followed by the escaped
key. -/
theorem addLabel_scalar_patch (isReplace : Bool) (key value : String) :
    (addLabel false isReplace key value).Value = PatchValue.str value ∧
    (addLabel false isReplace key value).OP = (if isReplace then "replace" else "add") ∧
    (key ≠ "" → key ≠ "." → key ≠ ".." →
      (addLabel false isReplace key value).Path = "/metadata/labels/" ++ escapeKey key) := by
  refine ⟨by simp [addLabel], ?_, ?_⟩
  · cases isReplace <;> simp [addLabel, patchOpAdd, patchOpReplace]
  · intro h0 h1 h2
    rw [addLabel_proper isReplace key value h0 h1 h2]

/-- C4, at a key holding both reserved characters. -/
theorem addLabel_scalar_patch_witness :
    ("a/b~c" ≠ "" ∧ "a/b~c" ≠ "." ∧ "a/b~c" ≠ "..") ∧
    (addLabel false true "a/b~c" "lb-1").Path = "/metadata/labels/a~1b~0c" :=
  ⟨by decide,
   ((addLabel_scalar_patch true "a/b~c" "lb-1").2.2 (by decide) (by decide) (by decide)).trans
     (by decide)⟩


theorem Join_spec_webhooks : path.Join ["/", "spec", "webhooks"] = "/spec/webhooks" := by
  decide

theorem webhookPatch_eq (known : String) :
    webhookPatch known =
      ⟨"add", "/spec/webhooks/-", PatchValue.webhook ⟨known, 10000000000⟩⟩ := by
  have h : path.Join ["/", "spec", "webhooks", "-"] = "/spec/webhooks/-" := by decide
  simp [webhookPatch, h, patchOpAdd, defaultWebhookTimeout, timeSecond]

theorem mem_foldl_insert (k : String) (ws : List WebhookConfig) (acc : List String) :
    k ∈ ws.foldl (fun s has => s.insert has.Name) acc ↔ k ∈ acc ∨ k ∈ ws.map (·.Name) := by
  induction ws generalizing acc with
  | nil => simp
  | cons w t ih =>
    simp only [List.foldl_cons, ih, List.mem_insert_iff, List.map_cons, List.mem_cons]
    tauto

theorem mem_existWebhooks (k : String) (ws : List WebhookConfig) :
    k ∈ existWebhooks ws ↔ k ∈ ws.map (·.Name) := by
  simp [existWebhooks, mem_foldl_insert]

/-- The second loop of `setWebhook` appends, in the order of the visit, the
patch of every visited name that the set does not hold. -/
theorem foldl_missing (exist known : List String) (p0 : List Patch) :
    known.foldl
      (fun patches k => if k ∈ exist then patches else patches ++ [webhookPatch k]) p0 =
    p0 ++ (known.filter (fun k => decide (k ∉ exist))).map webhookPatch := by
  induction known generalizing p0 with
  | nil => simp
  | cons k t ih =>
    by_cases h : k ∈ exist
    · simp [List.foldl_cons, ih, h]
    · simp [List.foldl_cons, ih, h]

theorem setWebhook_eq (known : List String) (dp : driverPatch) :
    (dp.setWebhook known).patches =
      dp.patches ++
        (if dp.obj.Spec.Webhooks.getD [] = [] then
          [⟨"add", "/spec/webhooks", PatchValue.emptyList⟩] else []) ++
        (known.filter (fun k => decide (k ∉ (dp.obj.Spec.Webhooks.getD []).map (·.Name)))).map
          (fun k => ⟨"add", "/spec/webhooks/-", PatchValue.webhook ⟨k, 10000000000⟩⟩) := by
  have hf : (fun k => decide (k ∉ existWebhooks (dp.obj.Spec.Webhooks.getD []))) =
      (fun k => decide (k ∉ (dp.obj.Spec.Webhooks.getD []).map (·.Name))) := by
    funext k
    simp only [mem_existWebhooks]
  have hw : webhookPatch =
      (fun k => (⟨"add", "/spec/webhooks/-", PatchValue.webhook ⟨k, 10000000000⟩⟩ : Patch)) :=
    funext webhookPatch_eq
  simp only [driverPatch.setWebhook, foldl_missing, hf, Join_spec_webhooks, patchOpAdd]
  rw [hw]
  cases h : dp.obj.Spec.Webhooks.getD [] with
  | nil => simp
  | cons w t => simp

/-- C8: list initialization and order. On a builder holding prior patches `p`,
`setWebhook` leaves `p ++ init ++ appends`: `init` is the single patch that
adds the empty list at "/spec/webhooks" when the webhook list of the snapshot is
nil or empty and is empty otherwise, and `appends` holds the append patch of
every known name missing from the snapshot, in the order of the visit. With a
non-empty list no patch at "/spec/webhooks" is appended. -/
theorem setWebhook_patches_order (known : List String) (dp : driverPatch) :
    (dp.setWebhook known).obj = dp.obj ∧
    (dp.setWebhook known).patches =
      dp.patches ++
        (if dp.obj.Spec.Webhooks = none ∨ dp.obj.Spec.Webhooks = some [] then
          [⟨"add", "/spec/webhooks", PatchValue.emptyList⟩] else []) ++
        (known.filter (fun k => decide (k ∉ (dp.obj.Spec.Webhooks.getD []).map (·.Name)))).map
          (fun k => ⟨"add", "/spec/webhooks/-", PatchValue.webhook ⟨k, 10000000000⟩⟩) ∧
    (∀ ws, dp.obj.Spec.Webhooks = some ws → ws ≠ [] →
      ∀ q ∈ (dp.setWebhook known).patches.drop dp.patches.length, q.Path ≠ "/spec/webhooks") := by
  refine ⟨rfl, ?_, ?_⟩
  · rw [setWebhook_eq]
    cases h : dp.obj.Spec.Webhooks with
    | none => simp
    | some ws => cases ws <;> simp
  · intro ws hws hne q hq
    rw [setWebhook_eq, List.append_assoc, List.drop_left] at hq
    simp only [hws, Option.getD_some, hne, if_false, List.nil_append, List.mem_map] at hq
    obtain ⟨k, _, rfl⟩ := hq
    show ("/spec/webhooks/-" : String) ≠ "/spec/webhooks"
    decide

/-- C8, on the driver of Scenario D with a prior patch in the builder. -/
theorem setWebhook_patches_order_witness :
    (driverPatch.setWebhook ["validate", "notify"]
      ⟨⟨⟨some [⟨"validate", 0⟩]⟩⟩, [defaultSvcProtocol]⟩).patches =
      [defaultSvcProtocol,
        ⟨"add", "/spec/webhooks/-", PatchValue.webhook ⟨"notify", 10000000000⟩⟩] ∧
    ∀ q ∈ (driverPatch.setWebhook ["validate", "notify"]
      ⟨⟨⟨some [⟨"validate", 0⟩]⟩⟩, [defaultSvcProtocol]⟩).patches.drop 1,
      q.Path ≠ "/spec/webhooks" :=
  ⟨((setWebhook_patches_order ["validate", "notify"]
      ⟨⟨⟨some [⟨"validate", 0⟩]⟩⟩, [defaultSvcProtocol]⟩).2.1).trans (by decide),
   (setWebhook_patches_order ["validate", "notify"]
      ⟨⟨⟨some [⟨"validate", 0⟩]⟩⟩, [defaultSvcProtocol]⟩).2.2 [⟨"validate", 0⟩] rfl
      (by decide)⟩

/-- C9: protocol default with precedence. `setDefaultProtocol` appends exactly
the patch that adds "TCP" at "/spec/service/port/protocol" when `Service` is
populated with an empty port protocol; otherwise exactly the patch that adds
"TCP" at "/spec/pods/port/protocol" when `Pods` is populated with an empty port
protocol; otherwise nothing. It appends at most one patch. -/
theorem setDefaultProtocol_precedence (bp : backendGroupPatch) :
    bp.setDefaultProtocol.obj = bp.obj ∧
    (∀ svc, bp.obj.Spec.Service = some svc → svc.Port.Protocol = "" →
      bp.setDefaultProtocol.patches =
        bp.patches ++ [⟨"add", "/spec/service/port/protocol", PatchValue.str "TCP"⟩]) ∧
    ((¬ ∃ svc, bp.obj.Spec.Service = some svc ∧ svc.Port.Protocol = "") →
      ∀ pod, bp.obj.Spec.Pods = some pod → pod.Port.Protocol = "" →
      bp.setDefaultProtocol.patches =
        bp.patches ++ [⟨"add", "/spec/pods/port/protocol", PatchValue.str "TCP"⟩]) ∧
    ((¬ ∃ svc, bp.obj.Spec.Service = some svc ∧ svc.Port.Protocol = "") →
      (¬ ∃ pod, bp.obj.Spec.Pods = some pod ∧ pod.Port.Protocol = "") →
      bp.setDefaultProtocol.patches = bp.patches) ∧
    (∃ added, bp.setDefaultProtocol.patches = bp.patches ++ added ∧ added.length ≤ 1) := by
  have hs : bp.obj.Spec.Service.any (fun svc => svc.Port.Protocol == "") = true ↔
      ∃ svc, bp.obj.Spec.Service = some svc ∧ svc.Port.Protocol = "" := by
    cases bp.obj.Spec.Service <;> simp
  have hp : bp.obj.Spec.Pods.any (fun pod => pod.Port.Protocol == "") = true ↔
      ∃ pod, bp.obj.Spec.Pods = some pod ∧ pod.Port.Protocol = "" := by
    cases bp.obj.Spec.Pods <;> simp
  refine ⟨?_, ?_, ?_, ?_, ?_⟩
  · unfold backendGroupPatch.setDefaultProtocol
    split
    · rfl
    · split <;> rfl
  · intro svc h1 h2
    have := hs.mpr ⟨svc, h1, h2⟩
    simp [backendGroupPatch.setDefaultProtocol, this, defaultSvcProtocol, patchOpAdd]
  · intro hn pod h1 h2
    have a := mt hs.mp hn
    have b := hp.mpr ⟨pod, h1, h2⟩
    simp only [Bool.not_eq_true] at a
    simp [backendGroupPatch.setDefaultProtocol, a, b, defaultPodProtocol, patchOpAdd]
  · intro hn1 hn2
    have a := mt hs.mp hn1
    have b := mt hp.mp hn2
    simp only [Bool.not_eq_true] at a b
    simp [backendGroupPatch.setDefaultProtocol, a, b]
  · unfold backendGroupPatch.setDefaultProtocol
    split
    · exact ⟨[defaultSvcProtocol], rfl, by simp⟩
    · split
      · exact ⟨[defaultPodProtocol], rfl, by simp⟩
      · exact ⟨[], by simp, by simp⟩

/-- C9, with both sub-specs populated and both protocols unset: only the
service-style patch is appended. -/
theorem setDefaultProtocol_precedence_witness :
    (backendGroupPatch.setDefaultProtocol
      ⟨⟨none, ⟨"lb-1", some ⟨⟨""⟩⟩, some ⟨⟨""⟩⟩⟩⟩, []⟩).patches =
      [⟨"add", "/spec/service/port/protocol", PatchValue.str "TCP"⟩] :=
  (setDefaultProtocol_precedence
    ⟨⟨none, ⟨"lb-1", some ⟨⟨""⟩⟩, some ⟨⟨""⟩⟩⟩⟩, []⟩).2.1 ⟨⟨""⟩⟩ rfl rfl

/-- C10 fails on a snapshot whose `Spec.LBName` is empty: `addLabel` has no
error result and appends a label patch carrying the empty value, as a label map
when the snapshot has no labels and as a scalar when it has other labels. -/
theorem addLabel_emptyLBName_emits :
    (backendGroupPatch.addLabel "lb-app" ⟨⟨none, ⟨"", none, none⟩⟩, []⟩).patches =
      [⟨"add", "/metadata/labels", PatchValue.labels [("lb-app", "")]⟩] ∧
    (backendGroupPatch.addLabel "lb-app"
        ⟨⟨some [("team", "x")], ⟨"", none, none⟩⟩, []⟩).patches =
      [⟨"add", "/metadata/labels/lb-app", PatchValue.str ""⟩] := by
  decide

/-- C10, amended: the builder has no error result. For every snapshot whose
`Spec.LBName` is the empty string, `addLabel` appends nothing when the label map
already binds `LabelLBName` to the empty string, and otherwise appends exactly
one label patch, whose value is the empty string: the label map {key: ""} when
the map is nil or empty, the scalar "" otherwise. -/
theorem addLabel_emptyLBName (key : String) (bp : backendGroupPatch)
    (he : bp.obj.Spec.LBName = "") :
    ((∃ m, bp.obj.Labels = some m ∧ m.lookup key = some "") →
      (bp.addLabel key).patches = bp.patches) ∧
    ((bp.obj.Labels = none ∨ bp.obj.Labels = some []) →
      ∃ q, (bp.addLabel key).patches = bp.patches ++ [q] ∧
        q.Value = PatchValue.labels [(key, "")]) ∧
    (∀ m, bp.obj.Labels = some m → m ≠ [] → m.lookup key ≠ some "" →
      ∃ q, (bp.addLabel key).patches = bp.patches ++ [q] ∧ q.Value = PatchValue.str "") := by
  refine ⟨?_, ?_, ?_⟩
  · rintro ⟨m, hm, hl⟩
    simp [backendGroupPatch.addLabel, hm, hl, he]
  · rintro (h | h)
    · exact ⟨admission.addLabel true false key "",
        by simp [backendGroupPatch.addLabel, h, he], by simp [admission.addLabel]⟩
    · exact ⟨admission.addLabel true false key "",
        by simp [backendGroupPatch.addLabel, h, he], by simp [admission.addLabel]⟩
  · intro m hm hne hl
    have hb : (m.length == 0) = false := by simpa using hne
    cases hk : m.lookup key with
    | none =>
      exact ⟨admission.addLabel false false key "",
        by simp [backendGroupPatch.addLabel, hm, hk, he, hb], by simp [admission.addLabel]⟩
    | some v =>
      have hv : v ≠ "" := fun e => hl (by rw [hk, e])
      exact ⟨admission.addLabel false true key "",
        by simp [backendGroupPatch.addLabel, hm, hk, he, hb, hv], by simp [admission.addLabel]⟩

/-- C10, on a snapshot without labels and with an empty `Spec.LBName`. -/
theorem addLabel_emptyLBName_witness :
    ∃ q, (backendGroupPatch.addLabel "lb-app" ⟨⟨none, ⟨"", none, none⟩⟩, []⟩).patches =
        [] ++ [q] ∧ q.Value = PatchValue.labels [("lb-app", "")] :=
  (addLabel_emptyLBName "lb-app" ⟨⟨none, ⟨"", none, none⟩⟩, []⟩ rfl).2.1 (Or.inl rfl)


theorem splitSlash_noSlash (seg : List Char) (h : '/' ∉ seg) : splitSlash seg = [seg] := by
  induction seg with
  | nil => rfl
  | cons c t ih =>
    simp only [List.mem_cons, not_or] at h
    have hc : c ≠ '/' := fun e => h.1 e.symm
    simp [splitSlash, hc, ih h.2]

theorem pointerTokens_labelPath (key : String) :
    pointerTokens ("/metadata/labels/" ++ escapeKey key) = some ["metadata", "labels", key] := by
  have hd : ("/metadata/labels/" ++ escapeKey key).data =
      '/' :: 'm' :: 'e' :: 't' :: 'a' :: 'd' :: 'a' :: 't' :: 'a' :: '/' ::
        'l' :: 'a' :: 'b' :: 'e' :: 'l' :: 's' :: '/' :: (escapeKey key).data := by
    rw [String.data_append]
    rfl
  have u1 : unescapeKey ⟨['m', 'e', 't', 'a', 'd', 'a', 't', 'a']⟩ = "metadata" := by decide
  have u2 : unescapeKey ⟨['l', 'a', 'b', 'e', 'l', 's']⟩ = "labels" := by decide
  have u3 : unescapeKey ⟨(escapeKey key).data⟩ = key := unescapeKey_escapeKey key
  simp [pointerTokens, hd, splitSlash, splitSlash_noSlash _ (escapeKey_noSlash key), u1, u2, u3]


theorem applyBackendGroupPatches_append (a b : List Patch) (o : BackendGroup) :
    applyBackendGroupPatches (a ++ b) o =
      (applyBackendGroupPatches a o).bind (applyBackendGroupPatches b) := by
  induction a generalizing o with
  | nil => simp [applyBackendGroupPatches]
  | cons p t ih =>
    simp only [List.cons_append, applyBackendGroupPatches]
    cases applyBackendGroupPatch p o with
    | none => simp
    | some o1 => simp [ih]

theorem addLabel_patches_prior (key : String) (bp : backendGroupPatch) :
    (bp.addLabel key).obj = bp.obj ∧
    (bp.addLabel key).patches =
      bp.patches ++ (backendGroupPatch.addLabel key ⟨bp.obj, []⟩).patches := by
  cases hL : bp.obj.Labels with
  | none => simp [backendGroupPatch.addLabel, hL]
  | some m =>
    cases hl : m.lookup key with
    | none => simp [backendGroupPatch.addLabel, hL, hl]
    | some v =>
      by_cases hv : v = bp.obj.Spec.LBName <;> simp [backendGroupPatch.addLabel, hL, hl, hv]

theorem setDefaultProtocol_patches_prior (bp : backendGroupPatch) :
    bp.setDefaultProtocol.patches =
      bp.patches ++ (backendGroupPatch.setDefaultProtocol ⟨bp.obj, []⟩).patches := by
  unfold backendGroupPatch.setDefaultProtocol
  dsimp only
  split
  · simp
  · split <;> simp

theorem backendGroupPatches_eq (key : String) (o : BackendGroup) :
    backendGroupPatches key o =
      (backendGroupPatch.addLabel key ⟨o, []⟩).patches ++
        (backendGroupPatch.setDefaultProtocol ⟨o, []⟩).patches := by
  unfold backendGroupPatches backendGroupPatch.patch
  rw [setDefaultProtocol_patches_prior, (addLabel_patches_prior key ⟨o, []⟩).1]

theorem pointerTokens_labels :
    pointerTokens "/metadata/labels" = some ["metadata", "labels"] := by decide

theorem pointerTokens_svc :
    pointerTokens "/spec/service/port/protocol" = some ["spec", "service", "port", "protocol"] := by
  decide

theorem pointerTokens_pod :
    pointerTokens "/spec/pods/port/protocol" = some ["spec", "pods", "port", "protocol"] := by
  decide

/-- Applying the label patch of a fresh builder binds the key to `Spec.LBName`
and leaves the spec as it is. -/
theorem apply_labelPatches (key : String) (o : BackendGroup)
    (h0 : key ≠ "") (h1 : key ≠ ".") (h2 : key ≠ "..") :
    ∃ m, applyBackendGroupPatches (backendGroupPatch.addLabel key ⟨o, []⟩).patches o =
        some { o with Labels := some m } ∧
      m.lookup key = some o.Spec.LBName := by
  obtain ⟨L, S⟩ := o
  have hadd : ("add" : String) ≠ "replace" := by decide
  have hne : ["metadata", "labels", key] ≠ ["metadata", "labels"] := by simp
  have hlook : ∀ m : List (String × String), (setLabel m key S.LBName).lookup key =
      some S.LBName := by
    intro m
    simp [setLabel, List.lookup]
  cases L with
  | none =>
    refine ⟨[(key, S.LBName)], ?_, by simp [List.lookup]⟩
    simp [backendGroupPatch.addLabel, addLabel_create, applyBackendGroupPatches,
      applyBackendGroupPatch, pointerTokens_labels, patchOpAdd, patchOpReplace]
  | some m =>
    cases m with
    | nil =>
      refine ⟨[(key, S.LBName)], ?_, by simp [List.lookup]⟩
      simp [backendGroupPatch.addLabel, addLabel_create, applyBackendGroupPatches,
        applyBackendGroupPatch, pointerTokens_labels, patchOpAdd, patchOpReplace]
    | cons e t =>
      cases hl : (e :: t).lookup key with
      | none =>
        refine ⟨setLabel (e :: t) key S.LBName, ?_, hlook _⟩
        simp [backendGroupPatch.addLabel, hl, addLabel_proper _ _ _ h0 h1 h2,
          applyBackendGroupPatches, applyBackendGroupPatch, pointerTokens_labelPath,
          patchOpAdd, patchOpReplace]
      | some v =>
        by_cases hv : v = S.LBName
        · refine ⟨e :: t, ?_, by rw [hl, hv]⟩
          simp [backendGroupPatch.addLabel, hl, hv, applyBackendGroupPatches]
        · refine ⟨setLabel (e :: t) key S.LBName, ?_, hlook _⟩
          simp [backendGroupPatch.addLabel, hl, hv, addLabel_proper _ _ _ h0 h1 h2,
            applyBackendGroupPatches, applyBackendGroupPatch, pointerTokens_labelPath,
            patchOpAdd, patchOpReplace]


/-- Applying the protocol patch of a fresh builder leaves no populated sub-spec
for a second run to patch, unless both sub-specs were populated with unset
protocols. -/
theorem apply_protoPatches (o : BackendGroup)
    (hx : ¬ ((∃ svc, o.Spec.Service = some svc ∧ svc.Port.Protocol = "") ∧
      (∃ pod, o.Spec.Pods = some pod ∧ pod.Port.Protocol = ""))) :
    ∃ o2, applyBackendGroupPatches (backendGroupPatch.setDefaultProtocol ⟨o, []⟩).patches o =
        some o2 ∧ o2.Labels = o.Labels ∧ o2.Spec.LBName = o.Spec.LBName ∧
      (backendGroupPatch.setDefaultProtocol ⟨o2, []⟩).patches = [] := by
  obtain ⟨L, ⟨n, svc, pod⟩⟩ := o
  have htcp : ("TCP" : String) ≠ "" := by decide
  have hadd : ("add" : String) ≠ "replace" := by decide
  have t1 : ["spec", "service", "port", "protocol"] ≠ ["metadata", "labels"] := by decide
  have t2 : ["spec", "pods", "port", "protocol"] ≠ ["metadata", "labels"] := by decide
  have t3 : ["spec", "pods", "port", "protocol"] ≠ ["spec", "service", "port", "protocol"] := by
    decide
  rcases svc with _ | ⟨⟨⟨ps⟩⟩⟩ <;> rcases pod with _ | ⟨⟨⟨pp⟩⟩⟩
  · exact ⟨_, rfl, rfl, rfl, rfl⟩
  · by_cases hp : pp = ""
    · subst hp
      refine ⟨⟨L, ⟨n, none, some ⟨⟨"TCP"⟩⟩⟩⟩, ?_, rfl, rfl, ?_⟩
      · simp [backendGroupPatch.setDefaultProtocol, defaultPodProtocol, applyBackendGroupPatches,
          applyBackendGroupPatch, pointerTokens_pod, patchOpAdd, patchOpReplace, t2, t3]
      · simp [backendGroupPatch.setDefaultProtocol, htcp]
    · refine ⟨⟨L, ⟨n, none, some ⟨⟨pp⟩⟩⟩⟩, ?_, rfl, rfl, ?_⟩
      · simp [backendGroupPatch.setDefaultProtocol, hp, applyBackendGroupPatches]
      · simp [backendGroupPatch.setDefaultProtocol, hp]
  · by_cases hs : ps = ""
    · subst hs
      refine ⟨⟨L, ⟨n, some ⟨⟨"TCP"⟩⟩, none⟩⟩, ?_, rfl, rfl, ?_⟩
      · simp [backendGroupPatch.setDefaultProtocol, defaultSvcProtocol, applyBackendGroupPatches,
          applyBackendGroupPatch, pointerTokens_svc, patchOpAdd, patchOpReplace, t1]
      · simp [backendGroupPatch.setDefaultProtocol, htcp]
    · refine ⟨⟨L, ⟨n, some ⟨⟨ps⟩⟩, none⟩⟩, ?_, rfl, rfl, ?_⟩
      · simp [backendGroupPatch.setDefaultProtocol, hs, applyBackendGroupPatches]
      · simp [backendGroupPatch.setDefaultProtocol, hs]
  · by_cases hs : ps = ""
    · subst hs
      have hp : pp ≠ "" := fun e => hx ⟨⟨_, rfl, rfl⟩, ⟨_, rfl, e⟩⟩
      refine ⟨⟨L, ⟨n, some ⟨⟨"TCP"⟩⟩, some ⟨⟨pp⟩⟩⟩⟩, ?_, rfl, rfl, ?_⟩
      · simp [backendGroupPatch.setDefaultProtocol, defaultSvcProtocol, applyBackendGroupPatches,
          applyBackendGroupPatch, pointerTokens_svc, patchOpAdd, patchOpReplace, t1]
      · simp [backendGroupPatch.setDefaultProtocol, htcp, hp]
    · by_cases hp : pp = ""
      · subst hp
        refine ⟨⟨L, ⟨n, some ⟨⟨ps⟩⟩, some ⟨⟨"TCP"⟩⟩⟩⟩, ?_, rfl, rfl, ?_⟩
        · simp [backendGroupPatch.setDefaultProtocol, hs, defaultPodProtocol,
            applyBackendGroupPatches, applyBackendGroupPatch, pointerTokens_pod, patchOpAdd,
            patchOpReplace, t2, t3]
        · simp [backendGroupPatch.setDefaultProtocol, htcp, hs]
      · refine ⟨⟨L, ⟨n, some ⟨⟨ps⟩⟩, some ⟨⟨pp⟩⟩⟩⟩, ?_, rfl, rfl, ?_⟩
        · simp [backendGroupPatch.setDefaultProtocol, hs, hp, applyBackendGroupPatches]
        · simp [backendGroupPatch.setDefaultProtocol, hs, hp]

theorem setDefaultProtocol_labels (o : BackendGroup) (L : Option (List (String × String))) :
    (backendGroupPatch.setDefaultProtocol ⟨{ o with Labels := L }, []⟩).patches =
      (backendGroupPatch.setDefaultProtocol ⟨o, []⟩).patches := by
  unfold backendGroupPatch.setDefaultProtocol
  dsimp only
  split
  · rfl
  · split <;> rfl

/-- C5 fails on a snapshot with both sub-specs populated and both protocols
unset: the first run patches the service-style protocol only, and the run on
the patched snapshot returns the pod-style patch. -/
theorem backendGroup_rerun_pods :
    backendGroupPatches "lb-app"
        ⟨some [("lb-app", "lb-1")], ⟨"lb-1", some ⟨⟨""⟩⟩, some ⟨⟨""⟩⟩⟩⟩ =
      [defaultSvcProtocol] ∧
    applyBackendGroupPatches [defaultSvcProtocol]
        ⟨some [("lb-app", "lb-1")], ⟨"lb-1", some ⟨⟨""⟩⟩, some ⟨⟨""⟩⟩⟩⟩ =
      some ⟨some [("lb-app", "lb-1")], ⟨"lb-1", some ⟨⟨"TCP"⟩⟩, some ⟨⟨""⟩⟩⟩⟩ ∧
    backendGroupPatches "lb-app"
        ⟨some [("lb-app", "lb-1")], ⟨"lb-1", some ⟨⟨"TCP"⟩⟩, some ⟨⟨""⟩⟩⟩⟩ =
      [defaultPodProtocol] := by
  decide

/-- C5, amended: idempotence of the BackendGroup builder. For every snapshot
that does not have both `Service` and `Pods` populated with unset protocols, the
patches `P` of a fresh builder (`addLabel`, then `setDefaultProtocol`) apply in
order to the snapshot, and a fresh builder on the patched snapshot returns no
patch. The key `LabelLBName` is any label key that is a real path element (not
empty, not "." and not ".."). -/
theorem backendGroup_idempotent (key : String) (o : BackendGroup)
    (h0 : key ≠ "") (h1 : key ≠ ".") (h2 : key ≠ "..")
    (hx : ¬ ((∃ svc, o.Spec.Service = some svc ∧ svc.Port.Protocol = "") ∧
      (∃ pod, o.Spec.Pods = some pod ∧ pod.Port.Protocol = ""))) :
    ∃ o2, applyBackendGroupPatches (backendGroupPatches key o) o = some o2 ∧
      backendGroupPatches key o2 = [] := by
  obtain ⟨m, hm, hl⟩ := apply_labelPatches key o h0 h1 h2
  obtain ⟨o2, ha, hL, hn, hp⟩ := apply_protoPatches { o with Labels := some m } hx
  refine ⟨o2, ?_, ?_⟩
  · rw [backendGroupPatches_eq, applyBackendGroupPatches_append, hm, Option.some_bind,
      ← setDefaultProtocol_labels o (some m)]
    exact ha
  · rw [backendGroupPatches_eq, hp]
    have hl2 : m.lookup key = some o2.Spec.LBName := by rw [hl, hn]
    simp [backendGroupPatch.addLabel, hL, hl2]

/-- C5, on Scenario C with a populated service-style sub-spec. -/
theorem backendGroup_idempotent_witness :
    ∃ o2, applyBackendGroupPatches
        (backendGroupPatches "lb-app" ⟨some [("lb-app", "lb-2")], ⟨"lb-1", some ⟨⟨""⟩⟩, none⟩⟩)
        ⟨some [("lb-app", "lb-2")], ⟨"lb-1", some ⟨⟨""⟩⟩, none⟩⟩ = some o2 ∧
      backendGroupPatches "lb-app" o2 = [] :=
  backendGroup_idempotent "lb-app" ⟨some [("lb-app", "lb-2")], ⟨"lb-1", some ⟨⟨""⟩⟩, none⟩⟩
    (by decide) (by decide) (by decide) (by simp)


theorem applyDriverPatches_append (a b : List Patch) (d : LoadBalancerDriver) :
    applyDriverPatches (a ++ b) d = (applyDriverPatches a d).bind (applyDriverPatches b) := by
  induction a generalizing d with
  | nil => simp [applyDriverPatches]
  | cons p t ih =>
    simp only [List.cons_append, applyDriverPatches]
    cases applyDriverPatch p d with
    | none => simp
    | some d1 => simp [ih]

theorem applyDriverPatch_init (d : LoadBalancerDriver) :
    applyDriverPatch ⟨"add", "/spec/webhooks", PatchValue.emptyList⟩ d = some ⟨⟨some []⟩⟩ := by
  have h : pointerTokens "/spec/webhooks" = some ["spec", "webhooks"] := by decide
  simp [applyDriverPatch, h, patchOpAdd, patchOpReplace]

theorem applyDriverPatch_append (ws : List WebhookConfig) (c : WebhookConfig) :
    applyDriverPatch ⟨"add", "/spec/webhooks/-", PatchValue.webhook c⟩ ⟨⟨some ws⟩⟩ =
      some ⟨⟨some (ws ++ [c])⟩⟩ := by
  have h : pointerTokens "/spec/webhooks/-" = some ["spec", "webhooks", "-"] := by decide
  simp [applyDriverPatch, h, patchOpAdd, patchOpReplace]

theorem applyDriverPatches_appends (l : List String) (ws : List WebhookConfig) :
    applyDriverPatches
        (l.map (fun k => ⟨"add", "/spec/webhooks/-", PatchValue.webhook ⟨k, 10000000000⟩⟩))
        ⟨⟨some ws⟩⟩ =
      some ⟨⟨some (ws ++ l.map (fun k => ⟨k, 10000000000⟩))⟩⟩ := by
  induction l generalizing ws with
  | nil => simp [applyDriverPatches]
  | cons k t ih =>
    simp [applyDriverPatches, applyDriverPatch_append, ih]

theorem driverPatches_eq (known : List String) (d : LoadBalancerDriver) :
    driverPatches known d =
      (if d.Spec.Webhooks.getD [] = [] then
        [⟨"add", "/spec/webhooks", PatchValue.emptyList⟩] else []) ++
      (known.filter (fun k => decide (k ∉ (d.Spec.Webhooks.getD []).map (·.Name)))).map
        (fun k => ⟨"add", "/spec/webhooks/-", PatchValue.webhook ⟨k, 10000000000⟩⟩) := by
  unfold driverPatches driverPatch.patch
  rw [setWebhook_eq]
  simp

/-- The patches of a fresh builder apply to the snapshot they were built from:
the webhook list becomes the old list followed by one declaration per known
name that was missing. -/
theorem apply_driverPatches (known : List String) (d : LoadBalancerDriver) :
    applyDriverPatches (driverPatches known d) d =
      some ⟨⟨some (d.Spec.Webhooks.getD [] ++
        (known.filter (fun k => decide (k ∉ (d.Spec.Webhooks.getD []).map (·.Name)))).map
          (fun k => ⟨k, 10000000000⟩))⟩⟩ := by
  rw [driverPatches_eq, applyDriverPatches_append]
  obtain ⟨⟨ws⟩⟩ := d
  rcases ws with _ | _ | ⟨w, t⟩
  · simp only [Option.getD_none, if_true, applyDriverPatches, applyDriverPatch_init,
      Option.some_bind]
    exact applyDriverPatches_appends _ []
  · simp only [Option.getD_some, if_true, applyDriverPatches, applyDriverPatch_init,
      Option.some_bind]
    exact applyDriverPatches_appends _ []
  · simp only [Option.getD_some, List.cons_ne_nil, if_false, applyDriverPatches, Option.some_bind]
    exact applyDriverPatches_appends _ (w :: t)

/-- C6 fails on a driver without webhooks when no webhook name is known: the
run emits the patch that initializes the list, and so does the run on the
patched snapshot. -/
theorem driver_rerun_init :
    driverPatches [] ⟨⟨none⟩⟩ = [⟨"add", "/spec/webhooks", PatchValue.emptyList⟩] ∧
    applyDriverPatches (driverPatches [] ⟨⟨none⟩⟩) ⟨⟨none⟩⟩ = some ⟨⟨some []⟩⟩ ∧
    driverPatches [] ⟨⟨some []⟩⟩ = [⟨"add", "/spec/webhooks", PatchValue.emptyList⟩] := by
  decide

/-- C6, amended: idempotence of the driver builder. For every driver snapshot
and every set of known webhook names, unless the set is empty and the webhook
list of the snapshot is nil or empty, the patches `P` of `setWebhook` on a
fresh builder apply in order to the snapshot, and `setWebhook` on a fresh
builder over the patched snapshot returns no patch, in whatever order the
second run visits the known names. -/
theorem driver_idempotent (known known2 : List String) (d : LoadBalancerDriver)
    (hk : ∀ n, n ∈ known2 ↔ n ∈ known)
    (hne : known ≠ [] ∨ ∃ ws, d.Spec.Webhooks = some ws ∧ ws ≠ []) :
    ∃ d2, applyDriverPatches (driverPatches known d) d = some d2 ∧
      driverPatches known2 d2 = [] := by
  refine ⟨_, apply_driverPatches known d, ?_⟩
  rw [driverPatches_eq]
  simp only [Option.getD_some]
  have hnil : d.Spec.Webhooks.getD [] ++
      (known.filter (fun k => decide (k ∉ (d.Spec.Webhooks.getD []).map (·.Name)))).map
        (fun k => (⟨k, 10000000000⟩ : WebhookConfig)) ≠ [] := by
    intro h
    rw [List.append_eq_nil] at h
    obtain ⟨ha, hb⟩ := h
    rcases hne with h1 | ⟨ws, h1, h2⟩
    · rw [ha] at hb
      simp at hb
      exact h1 hb
    · rw [h1] at ha
      exact h2 ha
  rw [if_neg hnil, List.nil_append, List.map_eq_nil_iff, List.filter_eq_nil_iff]
  intro n hn
  have hn1 := (hk n).mp hn
  by_cases hin : n ∈ (d.Spec.Webhooks.getD []).map (·.Name)
  · simp only [List.map_append, List.mem_append, decide_eq_true_eq, not_not]
    exact Or.inl hin
  · simp only [List.map_append, List.mem_append, decide_eq_true_eq, not_not]
    right
    simp only [List.map_map, List.mem_map, List.mem_filter, decide_eq_true_eq]
    exact ⟨n, ⟨hn1, by simpa using hin⟩, rfl⟩

/-- C6, on the driver of Scenario D, the second run visiting the names in the
other order. -/
theorem driver_idempotent_witness :
    ∃ d2, applyDriverPatches (driverPatches ["validate", "notify"]
        ⟨⟨some [⟨"validate", 0⟩]⟩⟩) ⟨⟨some [⟨"validate", 0⟩]⟩⟩ = some d2 ∧
      driverPatches ["notify", "validate"] d2 = [] :=
  driver_idempotent ["validate", "notify"] ["notify", "validate"] ⟨⟨some [⟨"validate", 0⟩]⟩⟩
    (by intro n; simp [or_comm]) (Or.inl (by decide))


theorem webhookAppend_injective :
    Function.Injective
      (fun k : String => (⟨"add", "/spec/webhooks/-", PatchValue.webhook ⟨k, 10000000000⟩⟩ : Patch)) := by
  intro a b h
  simpa using h

theorem mem_missing (known names : List String) (n : String) :
    n ∈ known.filter (fun k => decide (k ∉ names)) ↔ n ∈ known ∧ n ∉ names := by
  simp [List.mem_filter]

/-- C7: webhook completeness. For every driver snapshot whose webhook names are
distinct and all known, `setWebhook` on a fresh builder emits exactly one
append patch (op "add", the path being "/spec/webhooks" with the token "-"
added) for every known name missing
from the snapshot, none for a name that is present and no other patch at that
path; the patches apply to the snapshot, and the names of the patched list hold
every known name exactly once and nothing else. -/
theorem setWebhook_completeness (known : List String) (d : LoadBalancerDriver)
    (hkn : known.Nodup)
    (hnd : ((d.Spec.Webhooks.getD []).map (·.Name)).Nodup)
    (hsub : ∀ n ∈ (d.Spec.Webhooks.getD []).map (·.Name), n ∈ known) :
    (∀ n, (driverPatches known d).count
        ⟨"add", "/spec/webhooks/-", PatchValue.webhook ⟨n, 10000000000⟩⟩ =
      if n ∈ known ∧ n ∉ (d.Spec.Webhooks.getD []).map (·.Name) then 1 else 0) ∧
    (∀ q ∈ driverPatches known d, q.Path = "/spec/webhooks/-" →
      ∃ n, n ∈ known ∧ n ∉ (d.Spec.Webhooks.getD []).map (·.Name) ∧
        q = ⟨"add", "/spec/webhooks/-", PatchValue.webhook ⟨n, 10000000000⟩⟩) ∧
    ∃ ws2, applyDriverPatches (driverPatches known d) d = some ⟨⟨some ws2⟩⟩ ∧
      ∀ n, (ws2.map (·.Name)).count n = if n ∈ known then 1 else 0 := by
  have hM : (known.filter
      (fun k => decide (k ∉ (d.Spec.Webhooks.getD []).map (·.Name)))).Nodup := hkn.filter _
  refine ⟨?_, ?_, _, apply_driverPatches known d, ?_⟩
  · intro n
    rw [driverPatches_eq, List.count_append,
      List.count_map_of_injective _ _ webhookAppend_injective, List.count_eq_of_nodup hM]
    have h0 : List.count
        (⟨"add", "/spec/webhooks/-", PatchValue.webhook ⟨n, 10000000000⟩⟩ : Patch)
        (if d.Spec.Webhooks.getD [] = [] then
          [⟨"add", "/spec/webhooks", PatchValue.emptyList⟩] else []) = 0 := by
      split <;> simp
    rw [h0, Nat.zero_add]
    simp only [mem_missing]
  · intro q hq hpath
    rw [driverPatches_eq, List.mem_append] at hq
    rcases hq with hq | hq
    · exfalso
      split at hq
      · simp only [List.mem_singleton] at hq
        rw [hq] at hpath
        revert hpath
        decide
      · simp at hq
    · rw [List.mem_map] at hq
      obtain ⟨n, hn, rfl⟩ := hq
      rw [mem_missing] at hn
      exact ⟨n, hn.1, hn.2, rfl⟩
  · intro n
    have hmap : (d.Spec.Webhooks.getD [] ++
        (known.filter (fun k => decide (k ∉ (d.Spec.Webhooks.getD []).map (·.Name)))).map
          (fun k => (⟨k, 10000000000⟩ : WebhookConfig))).map (·.Name) =
        (d.Spec.Webhooks.getD []).map (·.Name) ++
          known.filter (fun k => decide (k ∉ (d.Spec.Webhooks.getD []).map (·.Name))) := by
      simp [List.map_append, List.map_map, Function.comp_def]
    rw [hmap]
    have hnodup : ((d.Spec.Webhooks.getD []).map (·.Name) ++
        known.filter (fun k => decide (k ∉ (d.Spec.Webhooks.getD []).map (·.Name)))).Nodup := by
      rw [List.nodup_append]
      refine ⟨hnd, hM, ?_⟩
      intro a ha hb
      rw [mem_missing] at hb
      exact hb.2 ha
    rw [List.count_eq_of_nodup hnodup]
    have hiff : n ∈ (d.Spec.Webhooks.getD []).map (·.Name) ++
        known.filter (fun k => decide (k ∉ (d.Spec.Webhooks.getD []).map (·.Name))) ↔
        n ∈ known := by
      rw [List.mem_append, mem_missing]
      constructor
      · rintro (h | h)
        · exact hsub n h
        · exact h.1
      · intro h
        by_cases hin : n ∈ (d.Spec.Webhooks.getD []).map (·.Name)
        · exact Or.inl hin
        · exact Or.inr ⟨h, hin⟩
    simp only [hiff]

/-- C7, on Scenario D: the list holds "validate", the known names are
"validate" and "notify", and the single patch appends "notify". -/
theorem setWebhook_completeness_witness :
    (driverPatches ["validate", "notify"] ⟨⟨some [⟨"validate", 0⟩]⟩⟩).count
        ⟨"add", "/spec/webhooks/-", PatchValue.webhook ⟨"notify", 10000000000⟩⟩ = 1 ∧
    (driverPatches ["validate", "notify"] ⟨⟨some [⟨"validate", 0⟩]⟩⟩).count
        ⟨"add", "/spec/webhooks/-", PatchValue.webhook ⟨"validate", 10000000000⟩⟩ = 0 ∧
    driverPatches ["validate", "notify"] ⟨⟨some [⟨"validate", 0⟩]⟩⟩ =
      [⟨"add", "/spec/webhooks/-", PatchValue.webhook ⟨"notify", 10000000000⟩⟩] :=
  ⟨((setWebhook_completeness ["validate", "notify"] ⟨⟨some [⟨"validate", 0⟩]⟩⟩
      (by decide) (by decide) (by decide)).1 "notify").trans (by decide),
   ((setWebhook_completeness ["validate", "notify"] ⟨⟨some [⟨"validate", 0⟩]⟩⟩
      (by decide) (by decide) (by decide)).1 "validate").trans (by decide),
   by decide⟩


/-- C15: for every key, value and `isReplace`, `addLabel(createLabel=true, ..)`
returns the patch with OP "add", Path "/metadata/labels" and Value the
single-entry map {key: value}; the key is stored as it is given (not escaped)
and `isReplace` has no effect. -/
theorem addLabel_createLabel (isReplace : Bool) (key value : String) :
    addLabel true isReplace key value =
      ⟨"add", "/metadata/labels", PatchValue.labels [(key, value)]⟩ ∧
    addLabel true isReplace key value = addLabel true (!isReplace) key value := by
  simp [addLabel, Join_metadata_labels, patchOpAdd]

/-- C16: for every finalizer string, `addFinalizer(createFinalizer=true, f)`
returns the patch that adds the one-element list [f] at "/metadata/finalizers",
and `addFinalizer(createFinalizer=false, f)` the patch that adds the scalar f
at "/metadata/finalizers" followed by the token "-"; the op is "add" in both
cases and the string is stored as it is given. -/
theorem addFinalizer_patch (finalizer : String) :
    addFinalizer true finalizer =
      ⟨"add", "/metadata/finalizers", PatchValue.strs [finalizer]⟩ ∧
    addFinalizer false finalizer =
      ⟨"add", "/metadata/finalizers/-", PatchValue.str finalizer⟩ := by
  have h1 : path.Join ["/", "metadata", "finalizers"] = "/metadata/finalizers" := by decide
  have h2 : path.Join ["/", "metadata", "finalizers", "-"] = "/metadata/finalizers/-" := by
    decide
  simp [addFinalizer, h1, h2, patchOpAdd]

/-- C14: every patch `setWebhook` appends at the append path has op "add" and a
`WebhookConfig` value whose Name is a known name missing from the snapshot and
whose Timeout is `defaultWebhookTimeout`, which is 10 seconds: 10 * 10^9
nanoseconds, not zero and within the range of an int64. Every known name that
is missing gets this patch, whatever else the snapshot holds. -/
theorem setWebhook_append_value (known : List String) (dp : driverPatch) :
    (defaultWebhookTimeout = 10 * 10 ^ 9 ∧ defaultWebhookTimeout ≠ 0 ∧
      defaultWebhookTimeout < 2 ^ 63) ∧
    (∀ q ∈ (dp.setWebhook known).patches.drop dp.patches.length,
      q.Path = "/spec/webhooks/-" →
      ∃ n, n ∈ known ∧ n ∉ (dp.obj.Spec.Webhooks.getD []).map (·.Name) ∧
        q = ⟨"add", "/spec/webhooks/-",
          PatchValue.webhook ⟨n, defaultWebhookTimeout⟩⟩) ∧
    (∀ n, n ∈ known → n ∉ (dp.obj.Spec.Webhooks.getD []).map (·.Name) →
      (⟨"add", "/spec/webhooks/-", PatchValue.webhook ⟨n, defaultWebhookTimeout⟩⟩ : Patch) ∈
        (dp.setWebhook known).patches.drop dp.patches.length) := by
  have ht : defaultWebhookTimeout = 10000000000 := by decide
  refine ⟨⟨by decide, by decide, by decide⟩, ?_, ?_⟩
  · intro q hq hpath
    rw [setWebhook_eq, List.append_assoc, List.drop_left, List.mem_append] at hq
    rcases hq with hq | hq
    · exfalso
      split at hq
      · simp only [List.mem_singleton] at hq
        rw [hq] at hpath
        revert hpath
        decide
      · simp at hq
    · rw [List.mem_map] at hq
      obtain ⟨n, hn, rfl⟩ := hq
      rw [mem_missing] at hn
      exact ⟨n, hn.1, hn.2, by rw [ht]⟩
  · intro n hk hn
    rw [setWebhook_eq, List.append_assoc, List.drop_left, List.mem_append]
    right
    rw [List.mem_map]
    exact ⟨n, (mem_missing _ _ _).mpr ⟨hk, hn⟩, by rw [ht]⟩

/-- C14, on the driver of Scenario D. -/
theorem setWebhook_append_value_witness :
    (⟨"add", "/spec/webhooks/-", PatchValue.webhook ⟨"notify", 10000000000⟩⟩ : Patch) ∈
      (driverPatch.setWebhook ["validate", "notify"]
        ⟨⟨⟨some [⟨"validate", 0⟩]⟩⟩, []⟩).patches.drop 0 :=
  (setWebhook_append_value ["validate", "notify"] ⟨⟨⟨some [⟨"validate", 0⟩]⟩⟩, []⟩).2.2
    "notify" (by decide) (by decide)


theorem addLabel_fresh_le_one (key : String) (o : BackendGroup) :
    (backendGroupPatch.addLabel key ⟨o, []⟩).patches = [] ∨
    ∃ c r, (backendGroupPatch.addLabel key ⟨o, []⟩).patches =
      [admission.addLabel c r key o.Spec.LBName] := by
  cases hL : o.Labels with
  | none => exact Or.inr ⟨true, false, by simp [backendGroupPatch.addLabel, hL]⟩
  | some m =>
    cases hl : m.lookup key with
    | none =>
      exact Or.inr ⟨m.length == 0, false, by simp [backendGroupPatch.addLabel, hL, hl]⟩
    | some v =>
      by_cases hv : v = o.Spec.LBName
      · exact Or.inl (by simp [backendGroupPatch.addLabel, hL, hl, hv])
      · exact Or.inr ⟨m.length == 0, true, by simp [backendGroupPatch.addLabel, hL, hl, hv]⟩

theorem setDefaultProtocol_fresh_le_one (o : BackendGroup) :
    (backendGroupPatch.setDefaultProtocol ⟨o, []⟩).patches = [] ∨
    (backendGroupPatch.setDefaultProtocol ⟨o, []⟩).patches = [defaultSvcProtocol] ∨
    (backendGroupPatch.setDefaultProtocol ⟨o, []⟩).patches = [defaultPodProtocol] := by
  unfold backendGroupPatch.setDefaultProtocol
  dsimp only
  split
  · exact Or.inr (Or.inl rfl)
  · split
    · exact Or.inr (Or.inr rfl)
    · exact Or.inl rfl

/-- C17: finalize order of the BackendGroup builder. On a builder holding prior
patches `p`, `addLabel` then `setDefaultProtocol` then `patch()` returns
`p ++ label ++ proto`: `label` holds no patch or the one label patch, `proto`
no patch or the one protocol patch, both as a fresh builder computes them. The
prior patches stay in front as they were, and a fresh builder returns at most
two patches. -/
theorem backendGroupPatch_patch_order (key : String) (bp : backendGroupPatch) :
    ∃ label proto,
      ((bp.addLabel key).setDefaultProtocol).patch = bp.patches ++ label ++ proto ∧
      label = (backendGroupPatch.addLabel key ⟨bp.obj, []⟩).patches ∧
      proto = (backendGroupPatch.setDefaultProtocol ⟨bp.obj, []⟩).patches ∧
      (label = [] ∨ ∃ c r, label = [admission.addLabel c r key bp.obj.Spec.LBName]) ∧
      (proto = [] ∨ proto = [defaultSvcProtocol] ∨ proto = [defaultPodProtocol]) ∧
      (backendGroupPatches key bp.obj = label ++ proto) ∧
      (backendGroupPatches key bp.obj).length ≤ 2 := by
  refine ⟨_, _, ?_, rfl, rfl, addLabel_fresh_le_one key bp.obj,
    setDefaultProtocol_fresh_le_one bp.obj, backendGroupPatches_eq key bp.obj, ?_⟩
  · unfold backendGroupPatch.patch
    rw [setDefaultProtocol_patches_prior, (addLabel_patches_prior key bp).1,
      (addLabel_patches_prior key bp).2]
  · rw [backendGroupPatches_eq, List.length_append]
    have h1 : (backendGroupPatch.addLabel key ⟨bp.obj, []⟩).patches.length ≤ 1 := by
      rcases addLabel_fresh_le_one key bp.obj with h | ⟨c, r, h⟩ <;> simp [h]
    have h2 : (backendGroupPatch.setDefaultProtocol ⟨bp.obj, []⟩).patches.length ≤ 1 := by
      rcases setDefaultProtocol_fresh_le_one bp.obj with h | h | h <;> simp [h]
    omega

theorem tildesEscaped_escape (l : List Char) :
    tildesEscaped (l.flatMap
      (fun c => if c = '~' then ['~', '0'] else if c = '/' then ['~', '1'] else [c])) = true := by
  induction l with
  | nil => rfl
  | cons c t ih =>
    rw [List.flatMap_cons]
    by_cases h1 : c = '~'
    · subst h1
      simp [tildesEscaped, ih]
    · by_cases h2 : c = '/'
      · subst h2
        simp [tildesEscaped, ih]
      · simp [tildesEscaped, ih, h1, h2]

theorem tildesEscaped_index (l : List Char) (h : tildesEscaped l = true) (i : Nat)
    (hi : l[i]? = some '~') : l[i + 1]? = some '0' ∨ l[i + 1]? = some '1' := by
  induction l generalizing i with
  | nil => simp at hi
  | cons c t ih =>
    simp only [tildesEscaped, Bool.and_eq_true, Bool.or_eq_true, bne_iff_ne, ne_eq,
      beq_iff_eq] at h
    cases i with
    | zero =>
      simp only [List.getElem?_cons_zero, Option.some.injEq] at hi
      have h1 := h.1
      simp only [hi, not_true_eq_false, false_or] at h1
      cases t with
      | nil => simp at h1
      | cons d u => simpa using h1
    | succ j =>
      simp only [List.getElem?_cons_succ] at hi ⊢
      exact ih h.2 j hi

/-- C18: the escaped key is a well-formed reference token of a JSON Pointer. For
every key, the segment `addLabel` computes holds no "/", and every "~" in it is
immediately followed by "0" or "1". -/
theorem escapeKey_wellFormed (key : String) :
    '/' ∉ (strings.ReplaceAll (strings.ReplaceAll key "~" "~0") "/" "~1").data ∧
    tildesEscaped (strings.ReplaceAll (strings.ReplaceAll key "~" "~0") "/" "~1").data = true ∧
    (∀ i, (escapeKey key).data[i]? = some '~' →
      (escapeKey key).data[i + 1]? = some '0' ∨ (escapeKey key).data[i + 1]? = some '1') := by
  have ht : tildesEscaped (escapeKey key).data = true := by
    rw [escapeKey_data]
    exact tildesEscaped_escape key.data
  exact ⟨escapeKey_noSlash key, ht, tildesEscaped_index _ ht⟩

/-- C18, at a key holding both reserved characters. -/
theorem escapeKey_wellFormed_witness :
    (escapeKey "a/~b").data[3]? = some '~' ∧
    ((escapeKey "a/~b").data[3 + 1]? = some '0' ∨ (escapeKey "a/~b").data[3 + 1]? = some '1') :=
  ⟨by decide, (escapeKey_wellFormed "a/~b").2.2 3 (by decide)⟩


/-- C19: the effect of the cleaning of `path.Join` on the label path. For every
key other than the empty string, "." and "..", `addLabel(createLabel=false, ..)`
returns the Path "/metadata/labels/" followed by the escaped key, a pointer
with exactly three reference tokens, the last one reading back as the key; for
the keys "" and "." the Path is "/metadata/labels", and for the key ".." it is
"/metadata". -/
theorem addLabel_path_cleaned (isReplace : Bool) (value : String) :
    (∀ key, key ≠ "" → key ≠ "." → key ≠ ".." →
      (addLabel false isReplace key value).Path = "/metadata/labels/" ++ escapeKey key ∧
      pointerTokens (addLabel false isReplace key value).Path =
        some ["metadata", "labels", key] ∧
      (pointerTokens (addLabel false isReplace key value).Path).map List.length = some 3) ∧
    (addLabel false isReplace "" value).Path = "/metadata/labels" ∧
    (addLabel false isReplace "." value).Path = "/metadata/labels" ∧
    (addLabel false isReplace ".." value).Path = "/metadata" := by
  refine ⟨?_, ?_, ?_, ?_⟩
  · intro key h0 h1 h2
    rw [addLabel_proper isReplace key value h0 h1 h2]
    simp [pointerTokens_labelPath]
  · have h : path.Join ["/", "metadata", "labels", escapeKey ""] = "/metadata/labels" := by
      decide
    simp [addLabel, h]
  · have h : path.Join ["/", "metadata", "labels", escapeKey "."] = "/metadata/labels" := by
      decide
    simp [addLabel, h]
  · have h : path.Join ["/", "metadata", "labels", escapeKey ".."] = "/metadata" := by
      decide
    simp [addLabel, h]

/-- C19, at the key of the scenarios and at a key with a slash. -/
theorem addLabel_path_cleaned_witness :
    (addLabel false false "lb-app" "lb-1").Path = "/metadata/labels/lb-app" ∧
    pointerTokens (addLabel false false "lbcf.tkestack.io/lb-name" "lb-1").Path =
      some ["metadata", "labels", "lbcf.tkestack.io/lb-name"] :=
  ⟨(((addLabel_path_cleaned false "lb-1").1 "lb-app"
      (by decide) (by decide) (by decide)).1).trans (by decide),
   ((addLabel_path_cleaned false "lb-1").1 "lbcf.tkestack.io/lb-name"
      (by decide) (by decide) (by decide)).2.1⟩

theorem lookup_setLabel_ne (m : List (String × String)) (key v k : String) (h : k ≠ key) :
    (setLabel m key v).lookup k = m.lookup k := by
  have hb : (k == key) = false := by simpa using h
  simp only [setLabel, List.lookup, hb]
  induction m with
  | nil => rfl
  | cons e t ih =>
    obtain ⟨a, b⟩ := e
    by_cases ha : a = key
    · subst ha
      simp [List.filter_cons, List.lookup, hb, ih]
    · by_cases hk : k = a
      · subst hk
        simp [List.filter_cons, List.lookup, ha]
      · have hka : (k == a) = false := by simpa using hk
        simp [List.filter_cons, List.lookup, ha, hka, ih]

/-- C12: effect of the label patch on the original object. For every snapshot,
the patches `addLabel` appends apply to the snapshot and change its label map
only: in the patched map `LabelLBName` is bound to `Spec.LBName`, and every
other key is bound as it was in the original map (present with its original
value, or absent as before). The key `LabelLBName` is any label key that is a
real path element (not empty, not "." and not ".."). -/
theorem addLabel_apply_frame (key : String) (o : BackendGroup)
    (h0 : key ≠ "") (h1 : key ≠ ".") (h2 : key ≠ "..") :
    ∃ m2, applyBackendGroupPatches (backendGroupPatch.addLabel key ⟨o, []⟩).patches o =
        some { o with Labels := some m2 } ∧
      m2.lookup key = some o.Spec.LBName ∧
      ∀ k, k ≠ key → m2.lookup k = (o.Labels.getD []).lookup k := by
  obtain ⟨L, S⟩ := o
  have hadd : ("add" : String) ≠ "replace" := by decide
  have hne : ["metadata", "labels", key] ≠ ["metadata", "labels"] := by simp
  have hlook : ∀ m : List (String × String), (setLabel m key S.LBName).lookup key =
      some S.LBName := by
    intro m
    simp [setLabel, List.lookup]
  have hone : ∀ k, k ≠ key → [(key, S.LBName)].lookup k = ([] : List (String × String)).lookup k := by
    intro k hk
    have hb : (k == key) = false := by simpa using hk
    simp [List.lookup, hb]
  cases L with
  | none =>
    refine ⟨[(key, S.LBName)], ?_, by simp [List.lookup], hone⟩
    simp [backendGroupPatch.addLabel, addLabel_create, applyBackendGroupPatches,
      applyBackendGroupPatch, pointerTokens_labels, patchOpAdd, patchOpReplace]
  | some m =>
    cases m with
    | nil =>
      refine ⟨[(key, S.LBName)], ?_, by simp [List.lookup], hone⟩
      simp [backendGroupPatch.addLabel, addLabel_create, applyBackendGroupPatches,
        applyBackendGroupPatch, pointerTokens_labels, patchOpAdd, patchOpReplace]
    | cons e t =>
      cases hl : (e :: t).lookup key with
      | none =>
        refine ⟨setLabel (e :: t) key S.LBName, ?_, hlook _,
          fun k hk => lookup_setLabel_ne _ _ _ _ hk⟩
        simp [backendGroupPatch.addLabel, hl, addLabel_proper _ _ _ h0 h1 h2,
          applyBackendGroupPatches, applyBackendGroupPatch, pointerTokens_labelPath,
          patchOpAdd, patchOpReplace]
      | some v =>
        by_cases hv : v = S.LBName
        · refine ⟨e :: t, ?_, by rw [hl, hv], fun k _ => rfl⟩
          simp [backendGroupPatch.addLabel, hl, hv, applyBackendGroupPatches]
        · refine ⟨setLabel (e :: t) key S.LBName, ?_, hlook _,
            fun k hk => lookup_setLabel_ne _ _ _ _ hk⟩
          simp [backendGroupPatch.addLabel, hl, hv, addLabel_proper _ _ _ h0 h1 h2,
            applyBackendGroupPatches, applyBackendGroupPatch, pointerTokens_labelPath,
            patchOpAdd, patchOpReplace]

/-- C12, on Scenario C with a second label: the association label is replaced
and the label "team" keeps its value. -/
theorem addLabel_apply_frame_witness :
    ∃ m2, applyBackendGroupPatches
        (backendGroupPatch.addLabel "lb-app"
          ⟨⟨some [("team", "x"), ("lb-app", "lb-2")], ⟨"lb-1", none, none⟩⟩, []⟩).patches
        ⟨some [("team", "x"), ("lb-app", "lb-2")], ⟨"lb-1", none, none⟩⟩ =
        some ⟨some m2, ⟨"lb-1", none, none⟩⟩ ∧
      m2.lookup "lb-app" = some "lb-1" ∧
      ∀ k, k ≠ "lb-app" → m2.lookup k = [("team", "x"), ("lb-app", "lb-2")].lookup k :=
  addLabel_apply_frame "lb-app"
    ⟨some [("team", "x"), ("lb-app", "lb-2")], ⟨"lb-1", none, none⟩⟩
    (by decide) (by decide) (by decide)


/-- C13 fails on a snapshot with both sub-specs populated and both protocols
unset: the one patch sets the service-style protocol, and after it is applied
the pod-style protocol is still unset. -/
theorem setDefaultProtocol_pods_unset :
    (backendGroupPatch.setDefaultProtocol
      ⟨⟨none, ⟨"lb-1", some ⟨⟨""⟩⟩, some ⟨⟨""⟩⟩⟩⟩, []⟩).patches = [defaultSvcProtocol] ∧
    applyBackendGroupPatches
        (backendGroupPatch.setDefaultProtocol
          ⟨⟨none, ⟨"lb-1", some ⟨⟨""⟩⟩, some ⟨⟨""⟩⟩⟩⟩, []⟩).patches
        ⟨none, ⟨"lb-1", some ⟨⟨""⟩⟩, some ⟨⟨""⟩⟩⟩⟩ =
      some ⟨none, ⟨"lb-1", some ⟨⟨"TCP"⟩⟩, some ⟨⟨""⟩⟩⟩⟩ := by
  decide

/-- C13, amended: after the patches of `setDefaultProtocol` are applied to the
snapshot, a populated `Service` whose protocol was unset has protocol "TCP",
and a populated `Pods` whose protocol was unset has protocol "TCP" unless
`Service` is populated with an unset protocol; in that case `Pods` is left as
it was. The labels and `Spec.LBName` are left as they were. -/
theorem setDefaultProtocol_apply (o : BackendGroup) :
    ∃ o2, applyBackendGroupPatches (backendGroupPatch.setDefaultProtocol ⟨o, []⟩).patches o =
        some o2 ∧
      o2.Labels = o.Labels ∧ o2.Spec.LBName = o.Spec.LBName ∧
      (∀ svc, o.Spec.Service = some svc → svc.Port.Protocol = "" →
        o2.Spec.Service = some ⟨⟨"TCP"⟩⟩ ∧ o2.Spec.Pods = o.Spec.Pods) ∧
      ((¬ ∃ svc, o.Spec.Service = some svc ∧ svc.Port.Protocol = "") →
        o2.Spec.Service = o.Spec.Service ∧
        ∀ pod, o.Spec.Pods = some pod → pod.Port.Protocol = "" →
          o2.Spec.Pods = some ⟨⟨"TCP"⟩⟩) := by
  obtain ⟨L, ⟨n, svc, pod⟩⟩ := o
  have hadd : ("add" : String) ≠ "replace" := by decide
  have t1 : ["spec", "service", "port", "protocol"] ≠ ["metadata", "labels"] := by decide
  have t2 : ["spec", "pods", "port", "protocol"] ≠ ["metadata", "labels"] := by decide
  have t3 : ["spec", "pods", "port", "protocol"] ≠ ["spec", "service", "port", "protocol"] := by
    decide
  have hsvc : ∀ pod : Option PodBackend,
      applyBackendGroupPatches
        (backendGroupPatch.setDefaultProtocol ⟨⟨L, ⟨n, some ⟨⟨""⟩⟩, pod⟩⟩, []⟩).patches
        ⟨L, ⟨n, some ⟨⟨""⟩⟩, pod⟩⟩ = some ⟨L, ⟨n, some ⟨⟨"TCP"⟩⟩, pod⟩⟩ := by
    intro pod
    simp [backendGroupPatch.setDefaultProtocol, defaultSvcProtocol, applyBackendGroupPatches,
      applyBackendGroupPatch, pointerTokens_svc, patchOpAdd, patchOpReplace, t1]
  have hpod : ∀ svc : Option ServiceBackend,
      (¬ ∃ s, svc = some s ∧ s.Port.Protocol = "") →
      applyBackendGroupPatches
        (backendGroupPatch.setDefaultProtocol ⟨⟨L, ⟨n, svc, some ⟨⟨""⟩⟩⟩⟩, []⟩).patches
        ⟨L, ⟨n, svc, some ⟨⟨""⟩⟩⟩⟩ = some ⟨L, ⟨n, svc, some ⟨⟨"TCP"⟩⟩⟩⟩ := by
    intro svc hs
    have hany : svc.any (fun s => s.Port.Protocol == "") = false := by
      cases svc with
      | none => rfl
      | some s =>
        have : s.Port.Protocol ≠ "" := fun e => hs ⟨s, rfl, e⟩
        simpa using this
    simp [backendGroupPatch.setDefaultProtocol, hany, defaultPodProtocol,
      applyBackendGroupPatches, applyBackendGroupPatch, pointerTokens_pod, patchOpAdd,
      patchOpReplace, t2, t3]
  by_cases hs : ∃ s, svc = some s ∧ s.Port.Protocol = ""
  · obtain ⟨⟨⟨ps⟩⟩, rfl, hps⟩ := hs
    simp only at hps
    subst hps
    refine ⟨_, hsvc pod, rfl, rfl, ?_, ?_⟩
    · intro _ _ _
      exact ⟨rfl, rfl⟩
    · intro hn
      exact absurd ⟨_, rfl, rfl⟩ hn
  · by_cases hp : ∃ p, pod = some p ∧ p.Port.Protocol = ""
    · obtain ⟨⟨⟨pp⟩⟩, rfl, hpp⟩ := hp
      simp only at hpp
      subst hpp
      refine ⟨_, hpod svc hs, rfl, rfl, ?_, ?_⟩
      · intro s h1 h2
        exact absurd ⟨s, h1, h2⟩ hs
      · intro _
        exact ⟨rfl, fun _ _ _ => rfl⟩
    · have hany1 : svc.any (fun s => s.Port.Protocol == "") = false := by
        cases svc with
        | none => rfl
        | some s =>
          have : s.Port.Protocol ≠ "" := fun e => hs ⟨s, rfl, e⟩
          simpa using this
      have hany2 : pod.any (fun s => s.Port.Protocol == "") = false := by
        cases pod with
        | none => rfl
        | some s =>
          have : s.Port.Protocol ≠ "" := fun e => hp ⟨s, rfl, e⟩
          simpa using this
      refine ⟨⟨L, ⟨n, svc, pod⟩⟩, ?_, rfl, rfl, ?_, ?_⟩
      · simp [backendGroupPatch.setDefaultProtocol, hany1, hany2, applyBackendGroupPatches]
      · intro s h1 h2
        exact absurd ⟨s, h1, h2⟩ hs
      · intro _
        exact ⟨rfl, fun p h1 h2 => absurd ⟨p, h1, h2⟩ hp⟩

/-- C13, on a snapshot whose pod-style sub-spec alone is populated. -/
theorem setDefaultProtocol_apply_witness :
    ∃ o2, applyBackendGroupPatches
        (backendGroupPatch.setDefaultProtocol
          ⟨⟨none, ⟨"lb-1", none, some ⟨⟨""⟩⟩⟩⟩, []⟩).patches
        ⟨none, ⟨"lb-1", none, some ⟨⟨""⟩⟩⟩⟩ = some o2 ∧
      o2.Spec.Pods = some ⟨⟨"TCP"⟩⟩ :=
  match setDefaultProtocol_apply ⟨none, ⟨"lb-1", none, some ⟨⟨""⟩⟩⟩⟩ with
  | ⟨o2, ha, _, _, _, hp⟩ => ⟨o2, ha, (hp (by simp)).2 ⟨⟨""⟩⟩ rfl rfl⟩


/-- C11 fails for two visits of the same two known names in different orders:
on a driver without webhooks the two runs return the append patches in
different orders. -/
theorem setWebhook_order_differs :
    driverPatches ["validate", "notify"] ⟨⟨none⟩⟩ =
      [⟨"add", "/spec/webhooks", PatchValue.emptyList⟩,
        ⟨"add", "/spec/webhooks/-", PatchValue.webhook ⟨"validate", 10000000000⟩⟩,
        ⟨"add", "/spec/webhooks/-", PatchValue.webhook ⟨"notify", 10000000000⟩⟩] ∧
    driverPatches ["notify", "validate"] ⟨⟨none⟩⟩ =
      [⟨"add", "/spec/webhooks", PatchValue.emptyList⟩,
        ⟨"add", "/spec/webhooks/-", PatchValue.webhook ⟨"notify", 10000000000⟩⟩,
        ⟨"add", "/spec/webhooks/-", PatchValue.webhook ⟨"validate", 10000000000⟩⟩] ∧
    driverPatches ["validate", "notify"] ⟨⟨none⟩⟩ ≠
      driverPatches ["notify", "validate"] ⟨⟨none⟩⟩ := by
  decide

/-- C11, amended: for a fixed driver snapshot and a fixed set of known webhook
names, two runs of `setWebhook` return the same patches up to the order of the
append patches. Both sequences start with the same initialization part, and
their append patches are those of the missing names in the order in which the
run visits the known names, so the two lists of append patches are
permutations of each other; the two runs return the same sequence exactly when
they visit the missing names in the same order. -/
theorem setWebhook_order_perm (known1 known2 : List String) (d : LoadBalancerDriver)
    (hp : known1.Perm known2) :
    ∃ init a1 a2,
      driverPatches known1 d = init ++ a1 ∧ driverPatches known2 d = init ++ a2 ∧
      init = (if d.Spec.Webhooks.getD [] = [] then
        [⟨"add", "/spec/webhooks", PatchValue.emptyList⟩] else []) ∧
      a1 = (known1.filter (fun k => decide (k ∉ (d.Spec.Webhooks.getD []).map (·.Name)))).map
        (fun k => ⟨"add", "/spec/webhooks/-", PatchValue.webhook ⟨k, 10000000000⟩⟩) ∧
      a2 = (known2.filter (fun k => decide (k ∉ (d.Spec.Webhooks.getD []).map (·.Name)))).map
        (fun k => ⟨"add", "/spec/webhooks/-", PatchValue.webhook ⟨k, 10000000000⟩⟩) ∧
      a1.Perm a2 ∧ (driverPatches known1 d).Perm (driverPatches known2 d) ∧
      (driverPatches known1 d = driverPatches known2 d ↔
        known1.filter (fun k => decide (k ∉ (d.Spec.Webhooks.getD []).map (·.Name))) =
          known2.filter (fun k => decide (k ∉ (d.Spec.Webhooks.getD []).map (·.Name)))) := by
  refine ⟨_, _, _, driverPatches_eq known1 d, driverPatches_eq known2 d, rfl, rfl, rfl,
    ?_, ?_, ?_⟩
  · exact (hp.filter _).map _
  · rw [driverPatches_eq, driverPatches_eq]
    exact List.Perm.append_left _ ((hp.filter _).map _)
  · rw [driverPatches_eq, driverPatches_eq, List.append_cancel_left_eq]
    exact ⟨fun h => List.map_injective_iff.mpr webhookAppend_injective h, fun h => by rw [h]⟩

/-- C11, on the driver of Scenario D. With a third known name the two visits
return permutations of each other; with the two names of the scenario the one
missing name makes the two visits return the same sequence. -/
theorem setWebhook_order_perm_witness :
    (driverPatches ["validate", "notify", "ensure"] ⟨⟨some [⟨"validate", 0⟩]⟩⟩).Perm
      (driverPatches ["ensure", "notify", "validate"] ⟨⟨some [⟨"validate", 0⟩]⟩⟩) ∧
    driverPatches ["validate", "notify"] ⟨⟨some [⟨"validate", 0⟩]⟩⟩ =
      driverPatches ["notify", "validate"] ⟨⟨some [⟨"validate", 0⟩]⟩⟩ :=
  ⟨match setWebhook_order_perm ["validate", "notify", "ensure"]
      ["ensure", "notify", "validate"] ⟨⟨some [⟨"validate", 0⟩]⟩⟩ (by decide) with
    | ⟨_, _, _, _, _, _, _, _, _, h, _⟩ => h,
   match setWebhook_order_perm ["validate", "notify"] ["notify", "validate"]
      ⟨⟨some [⟨"validate", 0⟩]⟩⟩ (by decide) with
    | ⟨_, _, _, _, _, _, _, _, _, _, h⟩ => h.mpr (by decide)⟩

/-- C20: `setWebhook` on an arbitrary existing list, repeated names and names
outside the known set included. The append patch of a name occurs once when the
name is known and not in the list of the snapshot, and never otherwise; every
patch is the initialization patch (only when the list is nil or empty) or such
an append patch, so every op is "add"; the number of patches is 1 if the list
is empty, else 0, plus the number of known names not in the list; and applying
the patches keeps the existing declarations in place, in front of the new
ones. The known names are visited without repetition. -/
theorem setWebhook_arbitrary (known : List String) (d : LoadBalancerDriver)
    (hkn : known.Nodup) :
    (∀ n, (driverPatches known d).count
        ⟨"add", "/spec/webhooks/-", PatchValue.webhook ⟨n, 10000000000⟩⟩ =
      if n ∈ known ∧ n ∉ (d.Spec.Webhooks.getD []).map (·.Name) then 1 else 0) ∧
    (∀ q ∈ driverPatches known d,
      (q = ⟨"add", "/spec/webhooks", PatchValue.emptyList⟩ ∧ d.Spec.Webhooks.getD [] = []) ∨
      ∃ n, n ∈ known ∧ n ∉ (d.Spec.Webhooks.getD []).map (·.Name) ∧
        q = ⟨"add", "/spec/webhooks/-", PatchValue.webhook ⟨n, 10000000000⟩⟩) ∧
    (driverPatches known d).length =
      (if d.Spec.Webhooks.getD [] = [] then 1 else 0) +
        (known.toFinset \ ((d.Spec.Webhooks.getD []).map (·.Name)).toFinset).card ∧
    ∃ added, applyDriverPatches (driverPatches known d) d =
        some ⟨⟨some (d.Spec.Webhooks.getD [] ++ added)⟩⟩ ∧
      added.map (·.Name) =
        known.filter (fun k => decide (k ∉ (d.Spec.Webhooks.getD []).map (·.Name))) := by
  have hM : (known.filter
      (fun k => decide (k ∉ (d.Spec.Webhooks.getD []).map (·.Name)))).Nodup := hkn.filter _
  refine ⟨?_, ?_, ?_, _, apply_driverPatches known d, ?_⟩
  · intro n
    rw [driverPatches_eq, List.count_append,
      List.count_map_of_injective _ _ webhookAppend_injective, List.count_eq_of_nodup hM]
    have h0 : List.count
        (⟨"add", "/spec/webhooks/-", PatchValue.webhook ⟨n, 10000000000⟩⟩ : Patch)
        (if d.Spec.Webhooks.getD [] = [] then
          [⟨"add", "/spec/webhooks", PatchValue.emptyList⟩] else []) = 0 := by
      split <;> simp
    rw [h0, Nat.zero_add]
    simp only [mem_missing]
  · intro q hq
    rw [driverPatches_eq, List.mem_append] at hq
    rcases hq with hq | hq
    · left
      split at hq
      · rename_i he
        exact ⟨by simpa using hq, he⟩
      · simp at hq
    · right
      rw [List.mem_map] at hq
      obtain ⟨n, hn, rfl⟩ := hq
      rw [mem_missing] at hn
      exact ⟨n, hn.1, hn.2, rfl⟩
  · rw [driverPatches_eq, List.length_append, List.length_map]
    have hcard : (known.toFinset \ ((d.Spec.Webhooks.getD []).map (·.Name)).toFinset).card =
        (known.filter
          (fun k => decide (k ∉ (d.Spec.Webhooks.getD []).map (·.Name)))).length := by
      rw [← List.toFinset_card_of_nodup hM]
      congr 1
      ext n
      simp [List.mem_filter]
    rw [hcard]
    congr 1
    split <;> rfl
  · simp [List.map_map, Function.comp_def]

/-- C20, on a list with a repeated name and a name outside the known set. -/
theorem setWebhook_arbitrary_witness :
    (driverPatches ["validate", "notify"]
        ⟨⟨some [⟨"validate", 0⟩, ⟨"validate", 5⟩, ⟨"other", 1⟩]⟩⟩).length =
      0 + 1 ∧
    (driverPatches ["validate", "notify"]
        ⟨⟨some [⟨"validate", 0⟩, ⟨"validate", 5⟩, ⟨"other", 1⟩]⟩⟩).count
      ⟨"add", "/spec/webhooks/-", PatchValue.webhook ⟨"notify", 10000000000⟩⟩ = 1 :=
  ⟨((setWebhook_arbitrary ["validate", "notify"]
      ⟨⟨some [⟨"validate", 0⟩, ⟨"validate", 5⟩, ⟨"other", 1⟩]⟩⟩ (by decide)).2.2.1).trans
      (by decide),
   ((setWebhook_arbitrary ["validate", "notify"]
      ⟨⟨some [⟨"validate", 0⟩, ⟨"validate", 5⟩, ⟨"other", 1⟩]⟩⟩ (by decide)).1 "notify").trans
      (by decide)⟩

end admission
